import Mathlib

/-!
Shallow embedding of the polling/watermark engine of the go-eth-listener
repository (package `ethclient`: `selectHighestBlock`, `poll`, `pollBlocks`,
`calculateBlocksFrom`, `pollTxs`, `pollEvents`, `pollEventsForTrigger`,
`resolveSourceFromTrigger`, the metadata shapes of `metadata.go` and the
trigger-parameter validation of `parameters.go`), together with theorems
settling the frozen claims about that code.

Machine integers are embedded as `Nat` (uint32, with explicit `% 2^32` where
the Go arithmetic can wrap) and `Int` (int32, normalised through two's
complement wrapping where the Go arithmetic can wrap).  Go maps are embedded
as association lists; a read of a missing key yields the Go zero value
exactly where the source reads a map directly (`md.LatestBlocks[name]`).
Handlers and providers are parameters of the embedded walkers: a handler is
a function giving the success/failure outcome of each invocation, and the
events provider is a function from a filter to the ordered event list it
returns.  Block fetches and metadata writes are modelled as succeeding, and
each walker additionally returns its invocation trace and the list of
metadata states it persisted, so that dispatch order and crash granularity
are visible to the theorems.
-/

namespace EthListener

/-- The uint32 modulus 2^32. -/
def u32Mod : Nat := 4294967296

/-- Go `int32` wrapping: normalise an integer into [-2^31, 2^31). -/
def i32 (x : Int) : Int := (x + 2147483648) % 4294967296 - 2147483648

/-- Go `uint32(x)` reinterpretation of an int32 value as a Nat in [0, 2^32). -/
def u32ofInt (x : Int) : Nat := (x % 4294967296).toNat

/-- Go `int32(h)` reinterpretation of a uint32 value. -/
def i32ofNat (h : Nat) : Int := i32 (Int.ofNat h)

/-- Go uint32 subtraction `a - b` (wrapping), for a b < 2^32. -/
def u32sub (a b : Nat) : Nat := (a + u32Mod - b) % u32Mod

/-- Lookup in an association list (embedding of a Go map read that
distinguishes presence, `v, exists := m[k]`). -/
def alookup {β : Type} (l : List (String × β)) (k : String) : Option β :=
  match l with
  | [] => none
  | (k', v) :: rest => if k' = k then some v else alookup rest k

/-- Update-or-insert in an association list (embedding of a Go map write
`m[k] = v`). -/
def aset {β : Type} (l : List (String × β)) (k : String) (v : β) :
    List (String × β) :=
  match l with
  | [] => [(k, v)]
  | (k', v') :: rest =>
      if k' = k then (k', v) :: rest else (k', v') :: aset rest k v

/-! ## Block triggers and the blocks watermark (`blocksMetadata.LatestBlocks`) -/

/-- Embedding of `handlers.BlockTrigger` (the handler itself is passed to the
walker separately, as an outcome function keyed by trigger name). -/
structure BlockTrigger where
  name : String
  earliestBlock : Nat
  deriving Repr, DecidableEq

/-- The blocks watermark: trigger name to last handled height (int32 values),
embedding `blocksMetadata.LatestBlocks`. -/
abbrev BlocksMd := List (String × Int)

/-- Embedding of the plain Go map read `md.LatestBlocks[name]`: a missing key
yields the zero value 0. -/
def mdGet (md : BlocksMd) (name : String) : Int := (alookup md name).getD 0

/-- Embedding of `calculateBlocksFrom` (listener.go).  Input: the service's
`earliestBlock` field (int32, -1 when no override is pending) and the blocks
metadata.  Output: `from`, the possibly rewound metadata, and the new value
of the `earliestBlock` field. -/
def calculateBlocksFrom (earliestBlock : Int) (md : BlocksMd) :
    Nat × BlocksMd × Int :=
  if earliestBlock > -1 then
    (u32ofInt earliestBlock,
     md.map (fun p => (p.1, i32 (earliestBlock - 1))),
     -1)
  else if md.length > 0 then
    (md.foldl
      (fun from_ p =>
        if from_ > u32ofInt (i32 (p.2 + 1)) then u32ofInt (i32 (p.2 + 1))
        else from_)
      (u32Mod - 1),
     md, earliestBlock)
  else
    (0, md, earliestBlock)

/-- A block handler outcome function: trigger name and height to success. -/
abbrev BlockHandler := String → Nat → Bool

/-- State threaded through the per-height trigger loop of `pollBlocks`:
metadata, the `failed` set, and the invocation trace accumulated so far
(trigger name, height, handler outcome). -/
abbrev BlockWalkState := BlocksMd × List String × List (String × Nat × Bool)

/-- Embedding of the body of the inner trigger loop of `pollBlocks`:
skip if already failed this cycle, skip if the watermark is already at or
above this height, otherwise invoke the handler and either record the
failure or advance the in-memory watermark. -/
def blockStepTrigger (hres : BlockHandler) (height : Nat)
    (st : BlockWalkState) (t : BlockTrigger) : BlockWalkState :=
  let (md, failed, tr) := st
  if t.name ∈ failed then st
  else if mdGet md t.name ≥ i32ofNat height then st
  else if hres t.name height then
    (aset md t.name (i32ofNat height), failed, tr ++ [(t.name, height, true)])
  else
    (md, t.name :: failed, tr ++ [(t.name, height, false)])

/-- One height of the `pollBlocks` walk: run every trigger, in registration
order, against the fetched block. -/
def blockStepHeight (hres : BlockHandler) (triggers : List BlockTrigger)
    (height : Nat) (st : BlockWalkState) : BlockWalkState :=
  triggers.foldl (blockStepTrigger hres height) st

/-- The `pollBlocks` walk over an explicit ascending list of heights,
starting from metadata `md` and failed set `failed`; returns the final
metadata, final failed set, the full invocation trace, and the list of
metadata states persisted (one `setBlocksMetadata` per height). -/
def runPollBlocksRange (hres : BlockHandler) (triggers : List BlockTrigger) :
    List Nat → BlocksMd → List String →
    BlocksMd × List String × List (String × Nat × Bool) × List BlocksMd
  | [], md, failed => (md, failed, [], [])
  | h :: hs, md, failed =>
    let st := blockStepHeight hres triggers h (md, failed, [])
    let rest := runPollBlocksRange hres triggers hs st.1 st.2.1
    (rest.1, rest.2.1, st.2.2 ++ rest.2.2.1, st.1 :: rest.2.2.2)

/-- The inclusive height range `from..to` walked by the Go
`for height := from; height <= to; height++` loop. -/
def heightsRange (from_ toB : Nat) : List Nat :=
  List.range' from_ (toB + 1 - from_)

/-- Embedding of `pollBlocks`: compute `from` via `calculateBlocksFrom`
(which may consume a pending override), return immediately when
`from > to`, otherwise walk the range with an empty failed set. -/
def pollBlocks (hres : BlockHandler) (triggers : List BlockTrigger)
    (earliestBlock : Int) (md : BlocksMd) (toB : Nat) :
    BlocksMd × Int × List (String × Nat × Bool) × List BlocksMd :=
  let c := calculateBlocksFrom earliestBlock md
  if c.1 > toB then (c.2.1, c.2.2, [], [])
  else
    let r := runPollBlocksRange hres triggers (heightsRange c.1 toB) c.2.1 []
    (r.1, c.2.2, r.2.2.1, r.2.2.2)

/-! ## Range selector (`selectHighestBlock`) and the poll dispatcher -/

/-- Embedding of `selectHighestBlock`: with a non-empty block specifier use
the height of the block the provider resolves the specifier to, else chain
height minus the configured block delay, in wrapping uint32 arithmetic.
Provider results are inputs (`Except` models the Go error returns). -/
def selectHighestBlock (blockSpecifier : String)
    (specifierHeight : Except Unit Nat) (chainHeight : Except Unit Nat)
    (blockDelay : Nat) : Except Unit Nat :=
  if blockSpecifier ≠ "" then
    match specifierHeight with
    | .error e => .error e
    | .ok n => .ok n
  else
    match chainHeight with
    | .error e => .error e
    | .ok h => .ok (u32sub h blockDelay)

/-- Embedding of `poll`: the bound handed to `pollTo` (and hence to all
three walkers), or `none` when `selectHighestBlock` errored and the cycle
was aborted. -/
def pollSelectedBound (blockSpecifier : String)
    (specifierHeight : Except Unit Nat) (chainHeight : Except Unit Nat)
    (blockDelay : Nat) : Option Nat :=
  match selectHighestBlock blockSpecifier specifierHeight chainHeight blockDelay with
  | .error _ => none
  | .ok toB => some toB

/-! ## Transaction walker (`pollTxs`, `pollBlockTxs`) -/

/-- A transaction as the tx walker sees it: sender and recipient addresses
(addresses abstracted to Nat). -/
structure TxRec where
  sender : Nat
  recipient : Nat
  deriving Repr, DecidableEq

/-- Embedding of `handlers.TxTrigger` (handler outcomes are irrelevant: the
tx handler has no error return). -/
structure TxTrigger where
  name : String
  fromFilter : Option Nat
  toFilter : Option Nat
  earliestBlock : Nat
  deriving Repr, DecidableEq

/-- The `from`/`to` filter test of the inner loop of `pollBlockTxs`:
a transaction is dispatched when neither configured filter mismatches. -/
def txMatches (trigger : TxTrigger) (tx : TxRec) : Bool :=
  (match trigger.fromFilter with
   | some a => tx.sender = a
   | none => true) &&
  (match trigger.toFilter with
   | some a => tx.recipient = a
   | none => true)

/-- Embedding of `pollBlockTxs` at one height: for each trigger, skip the
block if below the trigger's earliest block, else dispatch every filtered
transaction; returns the dispatch trace (trigger name, height, tx index). -/
def pollBlockTxs (txsOf : Nat → List TxRec) (triggers : List TxTrigger)
    (height : Nat) : List (String × Nat × Nat) :=
  triggers.foldl
    (fun acc trigger =>
      if height < trigger.earliestBlock then acc
      else
        acc ++ (((txsOf height).enum.filter
          (fun p => txMatches trigger p.2)).map
            (fun p => (trigger.name, height, p.1))))
    []

/-- Embedding of `pollTxs`: `from` is `uint32(md.LatestBlock + 1)` or the
pending override (consumed, a plain `!= -1` test in this walker); each
height dispatches its filtered transactions and persists
`md.LatestBlock = int32(height)`.  Returns the final watermark, the new
override field, the dispatch trace, and the persisted watermark values. -/
def runPollTxs (txsOf : Nat → List TxRec) (triggers : List TxTrigger)
    (earliestBlock : Int) (mdLatest : Int) (toB : Nat) :
    Int × Int × List (String × Nat × Nat) × List Int :=
  let fe : Nat × Int :=
    if earliestBlock ≠ -1 then (u32ofInt earliestBlock, -1)
    else (u32ofInt (mdLatest + 1), earliestBlock)
  if fe.1 > toB then (mdLatest, fe.2, [], [])
  else
    let r := (heightsRange fe.1 toB).foldl
      (fun acc h =>
        (i32ofNat h, acc.2.1 ++ pollBlockTxs txsOf triggers h,
         acc.2.2 ++ [i32ofNat h]))
      (mdLatest, [], [])
    (r.1, fe.2, r.2.1, r.2.2)

/-! ## Event triggers, the events watermark and the event walker -/

/-- A log event as returned by the events provider: uint32 block number and
uint32 event index. -/
structure EventRec where
  blockNumber : Nat
  index : Nat
  deriving Repr, DecidableEq

/-- Embedding of `eventsEntryMetadata`: per-trigger cursor of uint32
`LatestBlock` and int32 `LatestEventIndex`. -/
structure EventsEntry where
  latestBlock : Nat
  latestEventIndex : Int
  deriving Repr, DecidableEq

/-- The events watermark `eventsMetadata.Entries`. -/
abbrev EventsMd := List (String × EventsEntry)

/-- Embedding of `api.EventsFilter` as built by `pollEventsForTrigger`. -/
structure EventsFilter where
  fromBlock : Nat
  toBlock : Nat
  address : Option Nat
  topics : List Nat
  deriving Repr, DecidableEq

/-- Embedding of `handlers.EventTrigger`.  The `sourceResolver` field holds
the outcome of `Resolve` for this invocation (`none` = no resolver
configured); the handler is passed to the walker separately. -/
structure EventTrigger where
  name : String
  source : Option Nat
  sourceResolver : Option (Except Unit (Option Nat))
  topics : List Nat
  earliestBlock : Nat
  deriving Repr

/-- Embedding of `resolveSourceFromTrigger`: a configured resolver is
consulted first (propagating its error), else the static source; with
neither, the result is no source and no error. -/
def resolveSourceFromTrigger (trigger : EventTrigger) :
    Except Unit (Option Nat) :=
  match trigger.sourceResolver with
  | some r =>
    match r with
    | .error e => .error e
    | .ok addr => .ok addr
  | none =>
    match trigger.source with
    | some a => .ok (some a)
    | none => .ok none

/-- Events provider: a function from filter to the ordered list of events
it returns (queries are modelled as succeeding). -/
abbrev EventsProvider := EventsFilter → List EventRec

/-- The dispatch loop of `pollEventsForTrigger` over the provider's events,
carrying the cursor `(latestBlock, latestEventIndex)` of the last
successfully handled event.  Result: `some (lb, li)` when a handler errored
(the cursor at that moment), `none` when every event was processed; and the
dispatch trace (event, handler outcome). -/
def dispatchEvents (hres : EventRec → Bool) (fromBlock : Nat)
    (fromEventIndex : Int) :
    List EventRec → Nat → Int → Option (Nat × Int) × List (EventRec × Bool)
  | [], _, _ => (none, [])
  | e :: rest, lb, li =>
    if e.blockNumber = fromBlock ∧ i32ofNat e.index ≤ fromEventIndex then
      dispatchEvents hres fromBlock fromEventIndex rest lb li
    else if hres e then
      let r := dispatchEvents hres fromBlock fromEventIndex rest
        e.blockNumber (i32ofNat e.index)
      (r.1, (e, true) :: r.2)
    else (some (lb, li), [(e, false)])

/-- Result of `pollEventsForTrigger`: the returned cursor and error flag
(`ok = false` means an error return), the provider queries issued and the
dispatch trace. -/
structure TriggerPollResult where
  latestBlock : Nat
  latestEventIndex : Int
  ok : Bool
  queries : List EventsFilter
  dispatches : List (EventRec × Bool)
  deriving Repr, DecidableEq

/-- Embedding of `pollEventsForTrigger`: resolve the source (an error
returns the incoming cursor), query the provider once over
`[fromBlock, toBlock]`, dispatch the events skipping those at
`(fromBlock, index ≤ fromEventIndex)`; a handler error returns the cursor
of the last success, full success returns `(toBlock + 1, -1)`. -/
def pollEventsForTrigger (prov : EventsProvider) (hres : EventRec → Bool)
    (trigger : EventTrigger) (fromBlock : Nat) (fromEventIndex : Int)
    (toBlock : Nat) : TriggerPollResult :=
  match resolveSourceFromTrigger trigger with
  | .error _ =>
    { latestBlock := fromBlock, latestEventIndex := fromEventIndex,
      ok := false, queries := [], dispatches := [] }
  | .ok source =>
    let filter : EventsFilter :=
      { fromBlock := fromBlock, toBlock := toBlock, address := source,
        topics := trigger.topics }
    let events := prov filter
    let d := dispatchEvents hres fromBlock fromEventIndex events
      fromBlock fromEventIndex
    match d.1 with
    | some (lb, li) =>
      { latestBlock := lb, latestEventIndex := li, ok := false,
        queries := [filter], dispatches := d.2 }
    | none =>
      { latestBlock := (toBlock + 1) % u32Mod, latestEventIndex := -1,
        ok := true, queries := [filter], dispatches := d.2 }

/-- Per-trigger event handler outcomes, keyed by trigger name. -/
abbrev EventHandlerByName := String → EventRec → Bool

/-- The maximum event window (`maxBlocksForEvents`). -/
def maxBlocksForEvents : Nat := 100

/-- Result of `pollEvents`: final in-memory metadata, query and dispatch
traces tagged by trigger name, the metadata states persisted (one
`setEventsMetadata` per processed trigger), and whether the trigger loop
ran to completion (`completed = false` records the early `return nil`
taken when a trigger's `fromBlock > toBlock`). -/
structure EventsRunResult where
  md : EventsMd
  queries : List (String × EventsFilter)
  dispatches : List (String × EventRec × Bool)
  persists : List EventsMd
  completed : Bool
  deriving Repr, DecidableEq

/-- The cursor resolution at the top of the `pollEvents` loop body: use the
persisted entry when it exists and is at or above the trigger's earliest
block, else the earliest block with index -1; a missing entry is inserted
into the in-memory metadata at `(earliestBlock, -1)`. -/
def resolveCursor (trigger : EventTrigger) (md : EventsMd) :
    Nat × Int × EventsMd :=
  match alookup md trigger.name with
  | some entry =>
    if entry.latestBlock ≥ trigger.earliestBlock then
      (entry.latestBlock, entry.latestEventIndex, md)
    else (trigger.earliestBlock, -1, md)
  | none =>
    (trigger.earliestBlock, -1,
     aset md trigger.name
       { latestBlock := trigger.earliestBlock, latestEventIndex := -1 })

/-- The window clamp of `pollEvents`:
`if toBlock+1-fromBlock > maxBlocksForEvents` (uint32 arithmetic) the
`toBlock` variable becomes `fromBlock + maxBlocksForEvents - 1`. -/
def clampTo (toBlock fromBlock : Nat) : Nat :=
  if u32sub (toBlock + 1) fromBlock > maxBlocksForEvents then
    (fromBlock + maxBlocksForEvents - 1) % u32Mod
  else toBlock

/-- Embedding of the trigger loop of `pollEvents`.  Per trigger: resolve the
cursor from the entry (inserting a fresh entry at
`(earliestBlock, -1)` when none exists), return early when
`fromBlock > toBlock`, clamp the window to `maxBlocksForEvents`
(the clamp mutates the `toBlock` variable seen by later triggers), poll the
trigger, store its returned cursor (also on error) and persist. -/
def runPollEvents (prov : EventsProvider) (hres : EventHandlerByName) :
    List EventTrigger → EventsMd → Nat → EventsRunResult
  | [], md, _ =>
    { md := md, queries := [], dispatches := [], persists := [],
      completed := true }
  | trigger :: rest, md, toBlock =>
    let c := resolveCursor trigger md
    if c.1 > toBlock then
      { md := c.2.2, queries := [], dispatches := [], persists := [],
        completed := false }
    else
      let toB := clampTo toBlock c.1
      let r := pollEventsForTrigger prov (hres trigger.name) trigger
        c.1 c.2.1 toB
      let md2 := aset c.2.2 trigger.name
        { latestBlock := r.latestBlock, latestEventIndex := r.latestEventIndex }
      let k := runPollEvents prov hres rest md2 toB
      { md := k.md,
        queries := r.queries.map (fun f => (trigger.name, f)) ++ k.queries,
        dispatches :=
          r.dispatches.map (fun eb => (trigger.name, eb)) ++ k.dispatches,
        persists := md2 :: k.persists,
        completed := k.completed }

/-- One poll cycle of the event walker against the durable store: the store
after the cycle is the last persisted metadata state (unchanged when the
cycle persisted nothing). -/
def eventsCycle (prov : EventsProvider) (hres : EventHandlerByName)
    (triggers : List EventTrigger) (toBlock : Nat) (store : EventsMd) :
    EventsMd :=
  (runPollEvents prov hres triggers store toBlock).persists.getLastD store

/-! ## Trigger parameter validation (`checkTriggerParameters`, events loop) -/

/-- What `checkTriggerParameters` can see of an event trigger: its name and
whether a handler is set (it inspects no other field). -/
structure EventTriggerParams where
  name : String
  hasHandler : Bool
  deriving Repr, DecidableEq

/-- Embedding of the event-trigger loop of `checkTriggerParameters`: each
trigger must have a non-empty name and a handler; nothing else is
validated. -/
def checkEventTriggerParameters (triggers : List EventTriggerParams) :
    Except String Unit :=
  match triggers with
  | [] => .ok ()
  | t :: rest =>
    if t.name = "" then .error "no event trigger name specified"
    else if t.hasHandler = false then
      .error "no event trigger handler specified"
    else checkEventTriggerParameters rest

/-! ## Numeric helper lemmas -/

theorem i32_eq_self {x : Int} (h1 : -2147483648 ≤ x) (h2 : x < 2147483648) :
    i32 x = x := by
  unfold i32; omega

theorem u32ofInt_eq_toNat {x : Int} (h1 : 0 ≤ x) (h2 : x < 4294967296) :
    u32ofInt x = x.toNat := by
  unfold u32ofInt; omega

theorem u32ofInt_i32 (x : Int) : u32ofInt (i32 x) = u32ofInt x := by
  unfold u32ofInt i32; omega

theorem i32ofNat_eq_self {h : Nat} (hh : h < 2147483648) :
    i32ofNat h = (h : Int) := by
  unfold i32ofNat i32
  simp only [Int.ofNat_eq_coe]
  omega

theorem u32sub_of_le {a b : Nat} (h : b ≤ a) (hd : a - b < u32Mod) :
    u32sub a b = a - b := by
  unfold u32sub u32Mod at *; omega

theorem u32sub_of_lt {a b : Nat} (h : a < b) (hb : b < u32Mod) :
    u32sub a b = a + u32Mod - b := by
  unfold u32sub u32Mod at *; omega

/-! ## Claim C10: uint32 underflow in `selectHighestBlock` -/

/-- Claim C10: with no block specifier set, the selected upper bound is the
32-bit wrap of chainHeight - blockDelay; when the delay exceeds the chain
height the bound is not 0 and not an error but a value of at least
2^32 - blockDelay, and the poll cycle proceeds with that bound (the walkers
receive it). -/
theorem claim_C10_selectHighestBlock_underflow (h d : Nat)
    (spec : Except Unit Nat) (hh : h < u32Mod) (hd : d < u32Mod) :
    selectHighestBlock "" spec (.ok h) d = .ok ((h + u32Mod - d) % u32Mod) ∧
    (h < d →
      selectHighestBlock "" spec (.ok h) d = .ok (h + (u32Mod - d)) ∧
      h + (u32Mod - d) ≠ 0 ∧
      u32Mod - d ≤ h + (u32Mod - d) ∧
      pollSelectedBound "" spec (.ok h) d = some (h + (u32Mod - d))) := by
  have hsel : selectHighestBlock "" spec (.ok h) d = .ok (u32sub h d) := by
    simp [selectHighestBlock]
  constructor
  · rw [hsel]; unfold u32sub; rfl
  · intro hlt
    have hw : u32sub h d = h + (u32Mod - d) := by
      unfold u32sub u32Mod at *; omega
    refine ⟨by rw [hsel, hw], by unfold u32Mod at *; omega,
      by omega, ?_⟩
    unfold pollSelectedBound
    rw [hsel, hw]

/-- Witness for claim C10 at chain height 10 and block delay 50: the bound
is 2^32 - 40 = 4294967256, enormous and nonzero. -/
theorem claim_C10_witness :
    selectHighestBlock "" (.ok 0) (.ok 10) 50 = .ok 4294967256 ∧
    pollSelectedBound "" (.ok 0) (.ok 10) 50 = some 4294967256 ∧
    (4294967256 : Nat) ≠ 0 := by
  have := claim_C10_selectHighestBlock_underflow 10 50 (.ok 0)
    (by unfold u32Mod; omega) (by unfold u32Mod; omega)
  have h2 := (this.2 (by omega))
  refine ⟨?_, ?_, by omega⟩
  · rw [h2.1]; rfl
  · rw [h2.2.2.2]; rfl

/-! ## Claim C9: missing event source is not rejected -/

/-- Claim C9 counterexample: an event trigger with neither a static source
nor a dynamic resolver does not yield a configuration error: source
resolution returns no source and no error, the trigger is queried with no
address filter (and events are dispatched), and parameter validation
accepts the trigger. -/
theorem claim_C9_counterexample :
    resolveSourceFromTrigger
      { name := "T", source := none, sourceResolver := none, topics := [],
        earliestBlock := 0 } = .ok none ∧
    (pollEventsForTrigger (fun _ => [{ blockNumber := 5, index := 0 }])
      (fun _ => true)
      { name := "T", source := none, sourceResolver := none, topics := [],
        earliestBlock := 0 } 0 (-1) 10).queries =
      [{ fromBlock := 0, toBlock := 10, address := none, topics := [] }] ∧
    (pollEventsForTrigger (fun _ => [{ blockNumber := 5, index := 0 }])
      (fun _ => true)
      { name := "T", source := none, sourceResolver := none, topics := [],
        earliestBlock := 0 } 0 (-1) 10).ok = true ∧
    (pollEventsForTrigger (fun _ => [{ blockNumber := 5, index := 0 }])
      (fun _ => true)
      { name := "T", source := none, sourceResolver := none, topics := [],
        earliestBlock := 0 } 0 (-1) 10).dispatches =
      [({ blockNumber := 5, index := 0 }, true)] ∧
    checkEventTriggerParameters [{ name := "T", hasHandler := true }] =
      .ok () := by
  refine ⟨rfl, rfl, rfl, rfl, rfl⟩

/-- Claim C9 amended: for every event trigger that has neither a static
source address nor a dynamic source resolver, source resolution succeeds
with no address and no error, and the event query is issued exactly once
with no address filter; parameter validation accepts any such trigger with
a non-empty name and a handler (it checks nothing else). -/
theorem claim_C9_amended_no_source_not_rejected (trigger : EventTrigger)
    (h1 : trigger.sourceResolver = none) (h2 : trigger.source = none)
    (prov : EventsProvider) (hres : EventRec → Bool)
    (fromBlock : Nat) (fromEventIndex : Int) (toBlock : Nat) :
    resolveSourceFromTrigger trigger = .ok none ∧
    (pollEventsForTrigger prov hres trigger fromBlock fromEventIndex
      toBlock).queries =
      [{ fromBlock := fromBlock, toBlock := toBlock, address := none,
         topics := trigger.topics }] ∧
    (∀ name : String, name ≠ "" →
      checkEventTriggerParameters [{ name := name, hasHandler := true }] =
        .ok ()) := by
  have hres0 : resolveSourceFromTrigger trigger = .ok none := by
    unfold resolveSourceFromTrigger
    rw [h1, h2]
  refine ⟨hres0, ?_, ?_⟩
  · unfold pollEventsForTrigger
    rw [hres0]
    simp only
    split <;> rfl
  · intro name hn
    unfold checkEventTriggerParameters
    rw [if_neg hn]
    rfl

/-- Witness for the amended claim C9 at a concrete trigger. -/
theorem claim_C9_amended_witness :
    resolveSourceFromTrigger
      { name := "W", source := none, sourceResolver := none, topics := [3],
        earliestBlock := 7 } = .ok none ∧
    (pollEventsForTrigger (fun _ => []) (fun _ => true)
      { name := "W", source := none, sourceResolver := none, topics := [3],
        earliestBlock := 7 } 7 (-1) 20).queries =
      [{ fromBlock := 7, toBlock := 20, address := none, topics := [3] }] ∧
    checkEventTriggerParameters [{ name := "W", hasHandler := true }] =
      .ok () := by
  have := claim_C9_amended_no_source_not_rejected
    { name := "W", source := none, sourceResolver := none, topics := [3],
      earliestBlock := 7 } rfl rfl (fun _ => []) (fun _ => true) 7 (-1) 20
  exact ⟨this.1, this.2.1, this.2.2 "W" (by decide)⟩

/-! ## Claim C8: fresh block trigger and the genesis block -/

/-- Claim C8 (code behavior at the failing input): a block trigger with no
persisted watermark entry and no override, walked from `from = 0`, is
never invoked at height 0: the Go map read of the missing entry yields the
zero value 0 and `0 >= int32(0)` holds, so the trigger is treated as
already at height 0.  With `to = 0` the trace is empty and no watermark is
recorded; with `to = 2` the first invocation is at height 1, so the genesis
block is permanently skipped. -/
theorem claim_C8_fresh_trigger_skips_genesis :
    (calculateBlocksFrom (-1) []).1 = 0 ∧
    (pollBlocks (fun _ _ => true) [{ name := "T", earliestBlock := 0 }]
      (-1) [] 0).2.2.1 = [] ∧
    (pollBlocks (fun _ _ => true) [{ name := "T", earliestBlock := 0 }]
      (-1) [] 0).1 = [] ∧
    (pollBlocks (fun _ _ => true) [{ name := "T", earliestBlock := 0 }]
      (-1) [] 2).2.2.1 = [("T", 1, true), ("T", 2, true)] ∧
    (pollBlocks (fun _ _ => true) [{ name := "T", earliestBlock := 0 }]
      (-1) [] 2).1 = [("T", 2)] := by
  refine ⟨rfl, by decide, by decide, by decide, by decide⟩

/-! ## Claim C2: `pollEvents` early return on an empty per-trigger range -/

/-- Claim C2 (code behavior at the failing input): with two event triggers
where the first is caught up (`fromBlock > to`) and the second is far
behind, `pollEvents` returns from the whole trigger loop at the first
trigger (`return nil`, not a per-trigger skip): no query is issued, nothing
is dispatched, nothing is persisted, and the second trigger's entry is
untouched, so the durable store is unchanged by the cycle. -/
theorem claim_C2_early_return_skips_later_triggers :
    (runPollEvents (fun _ => [{ blockNumber := 50, index := 0 }])
      (fun _ _ => true)
      [{ name := "T1", source := some 7, sourceResolver := none,
         topics := [], earliestBlock := 0 },
       { name := "T2", source := some 8, sourceResolver := none,
         topics := [], earliestBlock := 0 }]
      [("T1", { latestBlock := 100, latestEventIndex := -1 }),
       ("T2", { latestBlock := 10, latestEventIndex := -1 })] 99).completed
      = false ∧
    (runPollEvents (fun _ => [{ blockNumber := 50, index := 0 }])
      (fun _ _ => true)
      [{ name := "T1", source := some 7, sourceResolver := none,
         topics := [], earliestBlock := 0 },
       { name := "T2", source := some 8, sourceResolver := none,
         topics := [], earliestBlock := 0 }]
      [("T1", { latestBlock := 100, latestEventIndex := -1 }),
       ("T2", { latestBlock := 10, latestEventIndex := -1 })] 99).queries
      = [] ∧
    (runPollEvents (fun _ => [{ blockNumber := 50, index := 0 }])
      (fun _ _ => true)
      [{ name := "T1", source := some 7, sourceResolver := none,
         topics := [], earliestBlock := 0 },
       { name := "T2", source := some 8, sourceResolver := none,
         topics := [], earliestBlock := 0 }]
      [("T1", { latestBlock := 100, latestEventIndex := -1 }),
       ("T2", { latestBlock := 10, latestEventIndex := -1 })] 99).dispatches
      = [] ∧
    (runPollEvents (fun _ => [{ blockNumber := 50, index := 0 }])
      (fun _ _ => true)
      [{ name := "T1", source := some 7, sourceResolver := none,
         topics := [], earliestBlock := 0 },
       { name := "T2", source := some 8, sourceResolver := none,
         topics := [], earliestBlock := 0 }]
      [("T1", { latestBlock := 100, latestEventIndex := -1 }),
       ("T2", { latestBlock := 10, latestEventIndex := -1 })] 99).persists
      = [] ∧
    eventsCycle (fun _ => [{ blockNumber := 50, index := 0 }])
      (fun _ _ => true)
      [{ name := "T1", source := some 7, sourceResolver := none,
         topics := [], earliestBlock := 0 },
       { name := "T2", source := some 8, sourceResolver := none,
         topics := [], earliestBlock := 0 }] 99
      [("T1", { latestBlock := 100, latestEventIndex := -1 }),
       ("T2", { latestBlock := 10, latestEventIndex := -1 })]
      = [("T1", { latestBlock := 100, latestEventIndex := -1 }),
         ("T2", { latestBlock := 10, latestEventIndex := -1 })] := by
  refine ⟨rfl, rfl, rfl, rfl, rfl⟩

/-! ## Claim C3: `calculateBlocksFrom` -/

/-- The running minimum fold used by `calculateBlocksFrom` never exceeds its
accumulator. -/
theorem foldlMin_le_acc {α : Type} (f : α → Nat) :
    ∀ (l : List α) (acc : Nat),
      l.foldl (fun a q => if a > f q then f q else a) acc ≤ acc := by
  intro l
  induction l with
  | nil => intro acc; simp
  | cons x xs ih =>
    intro acc
    simp only [List.foldl_cons]
    exact le_trans (ih (if acc > f x then f x else acc)) (by split <;> omega)

/-- The running minimum fold is a lower bound of every list element. -/
theorem foldlMin_le_mem {α : Type} (f : α → Nat) :
    ∀ (l : List α) (acc : Nat) (p : α), p ∈ l →
      l.foldl (fun a q => if a > f q then f q else a) acc ≤ f p := by
  intro l
  induction l with
  | nil => intro acc p hp; cases hp
  | cons x xs ih =>
    intro acc p hp
    simp only [List.foldl_cons]
    rcases List.mem_cons.mp hp with h | h
    · subst h
      exact le_trans (foldlMin_le_acc f xs _) (by split <;> omega)
    · exact ih _ p h

/-- The running minimum fold returns the accumulator or an element value. -/
theorem foldlMin_eq_acc_or_mem {α : Type} (f : α → Nat) :
    ∀ (l : List α) (acc : Nat),
      l.foldl (fun a q => if a > f q then f q else a) acc = acc ∨
      ∃ p, p ∈ l ∧
        l.foldl (fun a q => if a > f q then f q else a) acc = f p := by
  intro l
  induction l with
  | nil => intro acc; left; rfl
  | cons x xs ih =>
    intro acc
    simp only [List.foldl_cons]
    rcases ih (if acc > f x then f x else acc) with h | ⟨p, hp, hfp⟩
    · by_cases hc : acc > f x
      · right
        refine ⟨x, List.mem_cons_self x xs, ?_⟩
        rw [h, if_pos hc]
      · left
        rw [h, if_neg hc]
    · right
      exact ⟨p, List.mem_cons_of_mem x hp, hfp⟩

/-- Claim C3: `calculateBlocksFrom` returns the override when one is pending
(resetting every present trigger entry to override-1 and clearing the
override so a second call does not rewind again); otherwise, with a
non-empty watermark map, it returns the minimum over all entries of
(last height + 1) and leaves the map unchanged; otherwise it returns 0. -/
theorem claim_C3_calculateBlocksFrom (e : Int) (md : BlocksMd)
    (hwf : ∀ p ∈ md, -1 ≤ p.2 ∧ p.2 ≤ 2147483647) :
    (0 ≤ e → e ≤ 2147483647 →
      calculateBlocksFrom e md =
        (e.toNat, md.map (fun p => (p.1, e - 1)), -1)) ∧
    (∀ md2 : BlocksMd,
      (calculateBlocksFrom (-1) md2).2.1 = md2 ∧
      (calculateBlocksFrom (-1) md2).2.2 = -1) ∧
    (e = -1 → md ≠ [] →
      (∀ p ∈ md, (calculateBlocksFrom e md).1 ≤ (p.2 + 1).toNat) ∧
      (∃ p ∈ md, (calculateBlocksFrom e md).1 = (p.2 + 1).toNat) ∧
      (calculateBlocksFrom e md).2.1 = md) ∧
    (e = -1 → md = [] → calculateBlocksFrom e md = (0, [], -1)) := by
  have hgval : ∀ p ∈ md, u32ofInt (i32 (p.2 + 1)) = (p.2 + 1).toNat := by
    intro p hp
    rw [u32ofInt_i32]
    exact u32ofInt_eq_toNat (by have := hwf p hp; omega)
      (by have := hwf p hp; omega)
  refine ⟨?_, ?_, ?_, ?_⟩
  · intro he1 he2
    unfold calculateBlocksFrom
    rw [if_pos (by omega)]
    refine congrArg₂ Prod.mk ?_ (congrArg₂ Prod.mk ?_ rfl)
    · exact u32ofInt_eq_toNat he1 (by omega)
    · exact List.map_congr_left fun p _ => by
        rw [i32_eq_self (by omega) (by omega)]
  · intro md2
    unfold calculateBlocksFrom
    rw [if_neg (by omega)]
    split <;> exact ⟨rfl, rfl⟩
  · intro he hmd
    subst he
    have hne : md.length > 0 := by
      cases md with
      | nil => exact absurd rfl hmd
      | cons x xs => simp
    have hfrom : (calculateBlocksFrom (-1) md).1 =
        md.foldl
          (fun from_ p =>
            if from_ > u32ofInt (i32 (p.2 + 1)) then u32ofInt (i32 (p.2 + 1))
            else from_)
          (u32Mod - 1) := by
      unfold calculateBlocksFrom
      rw [if_neg (by omega), if_pos hne]
    refine ⟨?_, ?_, ?_⟩
    · intro p hp
      rw [hfrom, ← hgval p hp]
      exact foldlMin_le_mem _ md _ p hp
    · rcases foldlMin_eq_acc_or_mem
        (fun p : String × Int => u32ofInt (i32 (p.2 + 1))) md (u32Mod - 1)
        with hacc | ⟨p, hp, hfp⟩
      · exfalso
        obtain ⟨q, hq⟩ : ∃ q, q ∈ md := by
          cases md with
          | nil => exact absurd rfl hmd
          | cons x xs => exact ⟨x, List.mem_cons_self x xs⟩
        have h1 := foldlMin_le_mem
          (fun p : String × Int => u32ofInt (i32 (p.2 + 1))) md
          (u32Mod - 1) q hq
        rw [hacc] at h1
        have h2 : u32Mod - 1 ≤ (q.2 + 1).toNat := by
          rw [← hgval q hq]; exact h1
        have := hwf q hq
        unfold u32Mod at h2
        omega
      · exact ⟨p, hp, by rw [hfrom, hfp, hgval p hp]⟩
    · unfold calculateBlocksFrom
      rw [if_neg (by omega), if_pos hne]
  · intro he hmd
    subst he; subst hmd
    rfl

/-- Witness for claim C3: override 100 over entries A=500, B=200 rewinds
both to 99 and clears the override; the cleared state then computes the
minimum 201 without rewinding; an empty map gives 0. -/
theorem claim_C3_witness :
    calculateBlocksFrom 100 [("A", 500), ("B", 200)] =
      (100, [("A", 99), ("B", 99)], -1) ∧
    ((calculateBlocksFrom (-1) [("A", 99), ("B", 99)]).2.1 =
      [("A", 99), ("B", 99)] ∧
     (calculateBlocksFrom (-1) [("A", 99), ("B", 99)]).2.2 = -1) ∧
    (∀ p ∈ [(("A" : String), (500 : Int)), ("B", 200)],
      (calculateBlocksFrom (-1) [("A", 500), ("B", 200)]).1 ≤
        (p.2 + 1).toNat) ∧
    (∃ p ∈ [(("A" : String), (500 : Int)), ("B", 200)],
      (calculateBlocksFrom (-1) [("A", 500), ("B", 200)]).1 =
        (p.2 + 1).toNat) ∧
    calculateBlocksFrom (-1) [] = (0, [], -1) := by
  have h1 := claim_C3_calculateBlocksFrom 100 [("A", 500), ("B", 200)]
    (by decide)
  have h2 := claim_C3_calculateBlocksFrom (-1) [("A", 500), ("B", 200)]
    (by decide)
  have h3 := claim_C3_calculateBlocksFrom (-1) ([] : BlocksMd)
    (by intro p hp; cases hp)
  refine ⟨?_, h1.2.1 [("A", 99), ("B", 99)], ?_, ?_, h3.2.2.2 rfl rfl⟩
  · have := h1.1 (by omega) (by omega)
    rw [this]
    rfl
  · exact (h2.2.2.1 rfl (by decide)).1
  · exact (h2.2.2.1 rfl (by decide)).2.1

/-! ## Claim C4: event dedup at the window boundary -/

/-- The events of a window that survive the boundary dedup: those not at
`(fromBlock, index ≤ fromEventIndex)`. -/
def surviving (fromBlock : Nat) (fromEventIndex : Int)
    (l : List EventRec) : List EventRec :=
  l.filter
    (fun e =>
      !(decide (e.blockNumber = fromBlock ∧
        i32ofNat e.index ≤ fromEventIndex)))

/-- When every handler call succeeds, the dispatch loop completes and
dispatches exactly the surviving events, in provider order. -/
theorem dispatchEvents_all_ok (hres : EventRec → Bool) (fromBlock : Nat)
    (fromEventIndex : Int) :
    ∀ (l : List EventRec) (lb : Nat) (li : Int),
      (∀ e ∈ l, hres e = true) →
      dispatchEvents hres fromBlock fromEventIndex l lb li =
        (none,
         (surviving fromBlock fromEventIndex l).map (fun e => (e, true))) := by
  intro l
  induction l with
  | nil => intro lb li _; rfl
  | cons e rest ih =>
    intro lb li hok
    have hoke : hres e = true := hok e (List.mem_cons_self e rest)
    have hokr : ∀ x ∈ rest, hres x = true :=
      fun x hx => hok x (List.mem_cons_of_mem e hx)
    unfold dispatchEvents
    by_cases hseen : e.blockNumber = fromBlock ∧
        i32ofNat e.index ≤ fromEventIndex
    · rw [if_pos hseen, ih lb li hokr]
      have hpe : (!decide (e.blockNumber = fromBlock ∧
          i32ofNat e.index ≤ fromEventIndex)) = false := by
        simp [hseen]
      unfold surviving
      rw [List.filter_cons, hpe]
      rfl
    · rw [if_neg hseen, if_pos hoke, ih e.blockNumber (i32ofNat e.index) hokr]
      have hpe : (!decide (e.blockNumber = fromBlock ∧
          i32ofNat e.index ≤ fromEventIndex)) = true := by
        simp [hseen]
      unfold surviving
      rw [List.filter_cons, hpe]
      rfl

/-- Claim C4: for an event trigger whose source resolves, every event of
the queried window is dispatched if and only if it is not at
`(fromBlock, index ≤ fromEventIndex)`, in provider order (the dispatch
trace is exactly the surviving events, each handled successfully);
concretely, with cursor (200, 3) and provider events
[(200,2), (200,3), (200,4), (201,0)], exactly (200,4) then (201,0) are
dispatched. -/
theorem claim_C4_dedup_at_boundary (prov : EventsProvider)
    (hres : EventRec → Bool) (trigger : EventTrigger) (src : Option Nat)
    (hsrc : resolveSourceFromTrigger trigger = .ok src)
    (fromBlock : Nat) (fromEventIndex : Int) (toBlock : Nat)
    (q : EventsFilter)
    (hq : q = { fromBlock := fromBlock, toBlock := toBlock,
                address := src, topics := trigger.topics })
    (hok : ∀ e ∈ prov q, hres e = true) :
    (pollEventsForTrigger prov hres trigger fromBlock fromEventIndex
        toBlock).dispatches =
      (surviving fromBlock fromEventIndex (prov q)).map
        (fun e => (e, true)) ∧
    (pollEventsForTrigger
        (fun _ => [{ blockNumber := 200, index := 2 },
                   { blockNumber := 200, index := 3 },
                   { blockNumber := 200, index := 4 },
                   { blockNumber := 201, index := 0 }])
        (fun _ => true)
        { name := "T", source := some 7, sourceResolver := none,
          topics := [], earliestBlock := 0 } 200 3 299).dispatches =
      [({ blockNumber := 200, index := 4 }, true),
       ({ blockNumber := 201, index := 0 }, true)] := by
  constructor
  · subst hq
    unfold pollEventsForTrigger
    rw [hsrc]
    simp only
    rw [dispatchEvents_all_ok hres fromBlock fromEventIndex _ _ _ hok]
  · rfl

/-- Witness for claim C4 at the concrete spec scenario (cursor (200, 3),
window [200, 299], provider events (200,2) (200,3) (200,4) (201,0)). -/
theorem claim_C4_witness :
    (pollEventsForTrigger
        (fun _ => [{ blockNumber := 200, index := 2 },
                   { blockNumber := 200, index := 3 },
                   { blockNumber := 200, index := 4 },
                   { blockNumber := 201, index := 0 }])
        (fun _ => true)
        { name := "T", source := some 7, sourceResolver := none,
          topics := [], earliestBlock := 0 } 200 3 299).dispatches =
      (surviving 200 3
        [{ blockNumber := 200, index := 2 },
         { blockNumber := 200, index := 3 },
         { blockNumber := 200, index := 4 },
         { blockNumber := 201, index := 0 }]).map (fun e => (e, true)) ∧
    (surviving 200 3
        [{ blockNumber := 200, index := 2 },
         { blockNumber := 200, index := 3 },
         { blockNumber := 200, index := 4 },
         { blockNumber := 201, index := 0 }]) =
      [{ blockNumber := 200, index := 4 }, { blockNumber := 201, index := 0 }] := by
  constructor
  · exact (claim_C4_dedup_at_boundary
      (fun _ => [{ blockNumber := 200, index := 2 },
                 { blockNumber := 200, index := 3 },
                 { blockNumber := 200, index := 4 },
                 { blockNumber := 201, index := 0 }])
      (fun _ => true)
      { name := "T", source := some 7, sourceResolver := none,
        topics := [], earliestBlock := 0 } (some 7) rfl 200 3 299
      { fromBlock := 200, toBlock := 299, address := some 7, topics := [] }
      rfl (by intro e _; rfl)).1
  · decide

/-! ## Claim C6: window clamp and progress on quiet ranges -/

/-- `resolveCursor` uses a persisted entry at or above the earliest block. -/
theorem resolveCursor_entry (t : EventTrigger) (md : EventsMd)
    (lb : Nat) (li : Int)
    (hentry : alookup md t.name =
      some { latestBlock := lb, latestEventIndex := li })
    (hge : t.earliestBlock ≤ lb) :
    resolveCursor t md = (lb, li, md) := by
  unfold resolveCursor
  rw [hentry]
  simp only [ge_iff_le, hge, if_true]

/-- Unfolding of one `pollEvents` loop iteration when the head trigger
resolves to a non-empty range. -/
theorem runPollEvents_cons (prov : EventsProvider)
    (hres : EventHandlerByName) (t : EventTrigger) (rest : List EventTrigger)
    (md md1 : EventsMd) (toB fb : Nat) (fi : Int)
    (hc : resolveCursor t md = (fb, fi, md1))
    (hle : fb ≤ toB) :
    runPollEvents prov hres (t :: rest) md toB =
      (let toB2 := clampTo toB fb
       let r := pollEventsForTrigger prov (hres t.name) t fb fi toB2
       let md2 := aset md1 t.name
         { latestBlock := r.latestBlock,
           latestEventIndex := r.latestEventIndex }
       let k := runPollEvents prov hres rest md2 toB2
       { md := k.md,
         queries := r.queries.map (fun f => (t.name, f)) ++ k.queries,
         dispatches :=
           r.dispatches.map (fun eb => (t.name, eb)) ++ k.dispatches,
         persists := md2 :: k.persists,
         completed := k.completed }) := by
  simp only [runPollEvents, hc]
  rw [if_neg (by omega)]

/-- The clamp fires exactly on ranges larger than 100 blocks (no-wrap
regime). -/
theorem clampTo_of_large {toB fb : Nat} (hle : fb ≤ toB)
    (hlt : toB < u32Mod - 1) (hwin : toB + 1 - fb > 100) :
    clampTo toB fb = fb + 99 := by
  unfold clampTo
  have hsub : u32sub (toB + 1) fb = toB + 1 - fb :=
    u32sub_of_le (by omega) (by unfold u32Mod at *; omega)
  rw [hsub, if_pos (by unfold maxBlocksForEvents; omega)]
  unfold maxBlocksForEvents u32Mod at *
  omega

/-- Claim C6: (a) for an event trigger with a persisted cursor `(lb, li)`
whose candidate range `[lb, toB]` exceeds the 100-block window, the single
provider query is clamped to `[lb, lb+99]` and, when it returns zero
events, the persisted entry becomes `(lb+100, -1)` (cursor `(toBlock+1,-1)`
with `toBlock = lb+99`); (b) full success of any window (including zero
events) always returns cursor `(toBlock+1, -1)`; (c) concretely, with
earliest block 100, chain bound 1000 and a provider always returning no
events, three consecutive cycles persist LatestBlock 200, 300, 400 and
query the pairwise-disjoint windows [100,199], [200,299], [300,399]. -/
theorem claim_C6_progress_on_quiet_ranges :
    (∀ (prov : EventsProvider) (hres : EventHandlerByName)
       (t : EventTrigger) (src : Option Nat) (store : EventsMd)
       (lb : Nat) (li : Int) (toB : Nat),
      resolveSourceFromTrigger t = .ok src →
      alookup store t.name =
        some { latestBlock := lb, latestEventIndex := li } →
      t.earliestBlock ≤ lb → lb ≤ toB → toB < u32Mod - 1 →
      toB + 1 - lb > 100 →
      prov { fromBlock := lb, toBlock := lb + 99, address := src,
             topics := t.topics } = [] →
      (runPollEvents prov hres [t] store toB).queries =
        [(t.name, { fromBlock := lb, toBlock := lb + 99, address := src,
                    topics := t.topics })] ∧
      (runPollEvents prov hres [t] store toB).persists =
        [aset store t.name { latestBlock := lb + 100,
                             latestEventIndex := -1 }] ∧
      eventsCycle prov hres [t] toB store =
        aset store t.name { latestBlock := lb + 100,
                            latestEventIndex := -1 }) ∧
    (∀ (prov : EventsProvider) (hres : EventRec → Bool)
       (trigger : EventTrigger) (src : Option Nat)
       (fromBlock : Nat) (fromEventIndex : Int) (toB : Nat)
       (q : EventsFilter),
      resolveSourceFromTrigger trigger = .ok src →
      q = { fromBlock := fromBlock, toBlock := toB, address := src,
            topics := trigger.topics } →
      (∀ e ∈ prov q, hres e = true) →
      (pollEventsForTrigger prov hres trigger fromBlock fromEventIndex
          toB).latestBlock = (toB + 1) % u32Mod ∧
      (pollEventsForTrigger prov hres trigger fromBlock fromEventIndex
          toB).latestEventIndex = -1 ∧
      (pollEventsForTrigger prov hres trigger fromBlock fromEventIndex
          toB).ok = true) ∧
    (eventsCycle (fun _ => []) (fun _ _ => true)
        [{ name := "T", source := some 7, sourceResolver := none,
           topics := [], earliestBlock := 100 }] 1000 [] =
        [("T", { latestBlock := 200, latestEventIndex := -1 })] ∧
     eventsCycle (fun _ => []) (fun _ _ => true)
        [{ name := "T", source := some 7, sourceResolver := none,
           topics := [], earliestBlock := 100 }] 1000
        [("T", { latestBlock := 200, latestEventIndex := -1 })] =
        [("T", { latestBlock := 300, latestEventIndex := -1 })] ∧
     eventsCycle (fun _ => []) (fun _ _ => true)
        [{ name := "T", source := some 7, sourceResolver := none,
           topics := [], earliestBlock := 100 }] 1000
        [("T", { latestBlock := 300, latestEventIndex := -1 })] =
        [("T", { latestBlock := 400, latestEventIndex := -1 })] ∧
     (runPollEvents (fun _ => []) (fun _ _ => true)
        [{ name := "T", source := some 7, sourceResolver := none,
           topics := [], earliestBlock := 100 }] [] 1000).queries =
        [("T", { fromBlock := 100, toBlock := 199, address := some 7,
                 topics := [] })] ∧
     (runPollEvents (fun _ => []) (fun _ _ => true)
        [{ name := "T", source := some 7, sourceResolver := none,
           topics := [], earliestBlock := 100 }]
        [("T", { latestBlock := 200, latestEventIndex := -1 })]
        1000).queries =
        [("T", { fromBlock := 200, toBlock := 299, address := some 7,
                 topics := [] })] ∧
     (runPollEvents (fun _ => []) (fun _ _ => true)
        [{ name := "T", source := some 7, sourceResolver := none,
           topics := [], earliestBlock := 100 }]
        [("T", { latestBlock := 300, latestEventIndex := -1 })]
        1000).queries =
        [("T", { fromBlock := 300, toBlock := 399, address := some 7,
                 topics := [] })] ∧
     (199 < 200 ∧ 299 < 300)) := by
  refine ⟨?_, ?_, ?_⟩
  · intro prov hres t src store lb li toB hsrc hentry hge hle hlt hwin hempty
    have hcons := runPollEvents_cons prov hres t [] store store toB lb li
      (resolveCursor_entry t store lb li hentry hge) hle
    rw [clampTo_of_large hle hlt hwin] at hcons
    have hpoll : pollEventsForTrigger prov (hres t.name) t lb li (lb + 99) =
        { latestBlock := lb + 100, latestEventIndex := -1, ok := true,
          queries := [{ fromBlock := lb, toBlock := lb + 99, address := src,
                        topics := t.topics }],
          dispatches := [] } := by
      unfold pollEventsForTrigger
      rw [hsrc]
      simp only
      rw [hempty]
      unfold dispatchEvents
      simp only
      have hm : (lb + 99 + 1) % u32Mod = lb + 100 := by
        unfold u32Mod at *; omega
      rw [hm]
    have hfinal : runPollEvents prov hres [t] store toB =
        { md := aset store t.name
            { latestBlock := lb + 100, latestEventIndex := -1 },
          queries := [(t.name, { fromBlock := lb, toBlock := lb + 99,
                                 address := src, topics := t.topics })],
          dispatches := [],
          persists := [aset store t.name
            { latestBlock := lb + 100, latestEventIndex := -1 }],
          completed := true } := by
      rw [hcons]
      simp only [hpoll, runPollEvents]
      rfl
    refine ⟨by rw [hfinal], by rw [hfinal], ?_⟩
    unfold eventsCycle
    rw [hfinal]
    rfl
  · intro prov hres trigger src fromBlock fromEventIndex toB q hsrc hq hok
    subst hq
    unfold pollEventsForTrigger
    rw [hsrc]
    simp only
    rw [dispatchEvents_all_ok hres fromBlock fromEventIndex _ _ _ hok]
    exact ⟨rfl, rfl, rfl⟩
  · refine ⟨rfl, rfl, rfl, rfl, rfl, rfl, by omega, by omega⟩

/-- Witness for claim C6: the clamp/empty-window part at the second
concrete cycle (entry (200,-1), bound 1000), and the full-success part at
a window with one event. -/
theorem claim_C6_witness :
    ((runPollEvents (fun _ => []) (fun _ _ => true)
        [{ name := "T", source := some 7, sourceResolver := none,
           topics := [], earliestBlock := 100 }]
        [("T", { latestBlock := 200, latestEventIndex := -1 })]
        1000).queries =
      [("T", { fromBlock := 200, toBlock := 299, address := some 7,
               topics := [] })] ∧
     (runPollEvents (fun _ => []) (fun _ _ => true)
        [{ name := "T", source := some 7, sourceResolver := none,
           topics := [], earliestBlock := 100 }]
        [("T", { latestBlock := 200, latestEventIndex := -1 })]
        1000).persists =
      [[("T", { latestBlock := 300, latestEventIndex := -1 })]] ∧
     eventsCycle (fun _ => []) (fun _ _ => true)
        [{ name := "T", source := some 7, sourceResolver := none,
           topics := [], earliestBlock := 100 }] 1000
        [("T", { latestBlock := 200, latestEventIndex := -1 })] =
      [("T", { latestBlock := 300, latestEventIndex := -1 })]) ∧
    (pollEventsForTrigger (fun _ => [{ blockNumber := 5, index := 0 }])
        (fun _ => true)
        { name := "U", source := some 9, sourceResolver := none,
          topics := [], earliestBlock := 0 } 3 (-1) 12).latestBlock = 13 := by
  constructor
  · exact claim_C6_progress_on_quiet_ranges.1 (fun _ => []) (fun _ _ => true)
      { name := "T", source := some 7, sourceResolver := none,
        topics := [], earliestBlock := 100 } (some 7)
      [("T", { latestBlock := 200, latestEventIndex := -1 })] 200 (-1) 1000
      rfl rfl (by decide) (by decide) (by unfold u32Mod; omega) (by omega) rfl
  · have h := (claim_C6_progress_on_quiet_ranges.2.1
      (fun _ => [{ blockNumber := 5, index := 0 }]) (fun _ => true)
      { name := "U", source := some 9, sourceResolver := none,
        topics := [], earliestBlock := 0 } (some 9) 3 (-1) 12
      { fromBlock := 3, toBlock := 12, address := some 9, topics := [] }
      rfl rfl (by intro e _; rfl)).1
    rw [h]
    decide

/-! ## Claim C5: event handler failure semantics -/

/-- Lookup after updating a different key is unchanged. -/
theorem alookup_aset_ne {β : Type} (l : List (String × β)) (k m : String)
    (v : β) (h : k ≠ m) : alookup (aset l k v) m = alookup l m := by
  induction l with
  | nil =>
    unfold aset alookup
    rw [if_neg h]
    rfl
  | cons p rest ih =>
    obtain ⟨pk, pv⟩ := p
    unfold aset
    by_cases hk : pk = k
    · rw [if_pos hk]
      unfold alookup
      have hm : ¬ pk = m := by rw [hk]; exact h
      rw [if_neg hm, if_neg hm]
    · rw [if_neg hk]
      unfold alookup
      by_cases hm : pk = m
      · rw [if_pos hm, if_pos hm]
      · rw [if_neg hm, if_neg hm]
        exact ih

/-- Lookup after updating the same key yields the new value. -/
theorem alookup_aset_self {β : Type} (l : List (String × β)) (k : String)
    (v : β) : alookup (aset l k v) k = some v := by
  induction l with
  | nil =>
    unfold aset alookup
    rw [if_pos rfl]
  | cons p rest ih =>
    obtain ⟨pk, pv⟩ := p
    unfold aset
    by_cases hk : pk = k
    · rw [if_pos hk]
      unfold alookup
      rw [if_pos hk]
    · rw [if_neg hk]
      unfold alookup
      rw [if_neg hk]
      exact ih

/-- The queries issued by `pollEventsForTrigger` do not depend on the
handler outcomes (exactly one query per successful source resolution). -/
theorem pollEventsForTrigger_queries_indep (prov : EventsProvider)
    (h1 h2 : EventRec → Bool) (t : EventTrigger) (fb : Nat) (fi : Int)
    (toB : Nat) :
    (pollEventsForTrigger prov h1 t fb fi toB).queries =
      (pollEventsForTrigger prov h2 t fb fi toB).queries := by
  unfold pollEventsForTrigger
  cases hr : resolveSourceFromTrigger t with
  | error e => rfl
  | ok src =>
    simp only
    cases (dispatchEvents h1 fb fi
      (prov { fromBlock := fb, toBlock := toB, address := src,
              topics := t.topics }) fb fi).1 with
    | none =>
      cases (dispatchEvents h2 fb fi
        (prov { fromBlock := fb, toBlock := toB, address := src,
                topics := t.topics }) fb fi).1 with
      | none => rfl
      | some p => cases p; rfl
    | some p =>
      cases p
      cases (dispatchEvents h2 fb fi
        (prov { fromBlock := fb, toBlock := toB, address := src,
                topics := t.topics }) fb fi).1 with
      | none => rfl
      | some p2 => cases p2; rfl

/-- The cursor recorded by the dispatch loop: the position of the last
successfully handled event of the list, or the incoming cursor when the
list is empty. -/
def lastCursor (lb : Nat) (li : Int) : List EventRec → Nat × Int
  | [] => (lb, li)
  | x :: l => lastCursor x.blockNumber (i32ofNat x.index) l

/-- First-failure semantics of the dispatch loop: when every event before
`e` succeeds, `e` survives the dedup and its handler fails, the loop stops
at `e` with the cursor of the last success and dispatches nothing of the
remainder. -/
theorem dispatchEvents_first_fail (hres : EventRec → Bool) (fb : Nat)
    (fi : Int) (e : EventRec) (post : List EventRec)
    (hsurv : ¬(e.blockNumber = fb ∧ i32ofNat e.index ≤ fi))
    (hfail : hres e = false) :
    ∀ (pre : List EventRec) (lb : Nat) (li : Int),
      (∀ x ∈ pre, hres x = true) →
      dispatchEvents hres fb fi (pre ++ e :: post) lb li =
        (some (lastCursor lb li (surviving fb fi pre)),
         (surviving fb fi pre).map (fun x => (x, true)) ++ [(e, false)]) := by
  intro pre
  induction pre with
  | nil =>
    intro lb li _
    rw [List.nil_append]
    unfold dispatchEvents
    rw [if_neg hsurv, if_neg (by rw [hfail]; exact Bool.false_ne_true)]
    rfl
  | cons x pre ih =>
    intro lb li hok
    have hokx : hres x = true := hok x (List.mem_cons_self x pre)
    have hokr : ∀ y ∈ pre, hres y = true :=
      fun y hy => hok y (List.mem_cons_of_mem x hy)
    rw [List.cons_append]
    unfold dispatchEvents
    by_cases hseen : x.blockNumber = fb ∧ i32ofNat x.index ≤ fi
    · rw [if_pos hseen, ih lb li hokr]
      have hpe : (!decide (x.blockNumber = fb ∧ i32ofNat x.index ≤ fi))
          = false := by simp [hseen]
      unfold surviving
      rw [List.filter_cons, hpe]
      rfl
    · rw [if_neg hseen, if_pos hokx,
        ih x.blockNumber (i32ofNat x.index) hokr]
      have hpe : (!decide (x.blockNumber = fb ∧ i32ofNat x.index ≤ fi))
          = true := by simp [hseen]
      unfold surviving
      rw [List.filter_cons, hpe]
      rfl

/-- Early-return unfolding of one `pollEvents` loop iteration. -/
theorem runPollEvents_cons_early (prov : EventsProvider)
    (hres : EventHandlerByName) (t : EventTrigger) (rest : List EventTrigger)
    (md md1 : EventsMd) (toB fb : Nat) (fi : Int)
    (hc : resolveCursor t md = (fb, fi, md1))
    (hgt : fb > toB) :
    runPollEvents prov hres (t :: rest) md toB =
      { md := md1, queries := [], dispatches := [], persists := [],
        completed := false } := by
  simp only [runPollEvents, hc]
  rw [if_pos hgt]

/-- The resolved cursor of a trigger depends only on the metadata entry for
that trigger's name. -/
theorem resolveCursor_cursor_eq (t : EventTrigger) (md1 md2 : EventsMd)
    (hname : alookup md1 t.name = alookup md2 t.name) :
    (resolveCursor t md1).1 = (resolveCursor t md2).1 ∧
    (resolveCursor t md1).2.1 = (resolveCursor t md2).2.1 := by
  unfold resolveCursor
  rw [hname]
  cases alookup md2 t.name with
  | none => exact ⟨rfl, rfl⟩
  | some entry =>
    simp only
    split
    · exact ⟨rfl, rfl⟩
    · exact ⟨rfl, rfl⟩

/-- Cursor resolution leaves the metadata entries of other names
unchanged. -/
theorem resolveCursor_md_agree_ne (t : EventTrigger) (md : EventsMd)
    (n : String) (hne : t.name ≠ n) :
    alookup (resolveCursor t md).2.2 n = alookup md n := by
  unfold resolveCursor
  cases h : alookup md t.name with
  | none =>
    simp only
    exact alookup_aset_ne md t.name n _ hne
  | some entry =>
    simp only
    split
    · rfl
    · rfl

/-- The provider queries a `pollEvents` run issues depend neither on the
handler outcomes nor on metadata entries of unregistered names: two runs
over the same triggers with possibly different handlers, from metadata
states agreeing on every registered trigger name, issue identical
queries. -/
theorem runPollEvents_queries_agree (prov : EventsProvider)
    (h1 h2 : EventHandlerByName) :
    ∀ (triggers : List EventTrigger) (md1 md2 : EventsMd) (toB : Nat),
      (triggers.map (fun t => t.name)).Nodup →
      (∀ n ∈ triggers.map (fun t => t.name),
        alookup md1 n = alookup md2 n) →
      (runPollEvents prov h1 triggers md1 toB).queries =
        (runPollEvents prov h2 triggers md2 toB).queries := by
  intro triggers
  induction triggers with
  | nil => intro md1 md2 toB _ _; rfl
  | cons t rest ih =>
    intro md1 md2 toB hnodup hagree
    have hname : alookup md1 t.name = alookup md2 t.name :=
      hagree t.name (by simp)
    have hnodup2 : (rest.map (fun t => t.name)).Nodup := by
      simp only [List.map_cons, List.nodup_cons] at hnodup
      exact hnodup.2
    have hnotmem : t.name ∉ rest.map (fun t => t.name) := by
      simp only [List.map_cons, List.nodup_cons] at hnodup
      exact hnodup.1
    have hcur := resolveCursor_cursor_eq t md1 md2 hname
    have hc1 : resolveCursor t md1 =
        ((resolveCursor t md1).1, (resolveCursor t md1).2.1,
         (resolveCursor t md1).2.2) := rfl
    have hc2 : resolveCursor t md2 =
        ((resolveCursor t md1).1, (resolveCursor t md1).2.1,
         (resolveCursor t md2).2.2) := by
      rw [hcur.1, hcur.2]
    have hagree2 : ∀ n ∈ rest.map (fun t => t.name),
        alookup (resolveCursor t md1).2.2 n =
        alookup (resolveCursor t md2).2.2 n := by
      intro n hn
      have hne : t.name ≠ n := fun h => hnotmem (h ▸ hn)
      rw [resolveCursor_md_agree_ne t md1 n hne,
        resolveCursor_md_agree_ne t md2 n hne]
      exact hagree n (List.mem_cons_of_mem _ hn)
    by_cases hcmp : (resolveCursor t md1).1 > toB
    · rw [runPollEvents_cons_early prov h1 t rest md1 _ toB _ _ hc1 hcmp,
        runPollEvents_cons_early prov h2 t rest md2 _ toB _ _ hc2 hcmp]
    · push_neg at hcmp
      rw [runPollEvents_cons prov h1 t rest md1 _ toB _ _ hc1 hcmp,
        runPollEvents_cons prov h2 t rest md2 _ toB _ _ hc2 hcmp]
      simp only
      refine congrArg₂ (· ++ ·) ?_ ?_
      · exact congrArg (List.map (fun f => (t.name, f)))
          (pollEventsForTrigger_queries_indep prov (h1 t.name) (h2 t.name)
            t _ _ _)
      · refine ih _ _ _ hnodup2 ?_
        intro n hn
        have hne : t.name ≠ n := fun h => hnotmem (h ▸ hn)
        rw [alookup_aset_ne _ t.name n _ hne,
          alookup_aset_ne _ t.name n _ hne]
        exact hagree2 n hn

/-- Claim C5: (a) on the first handler error in a window, the trigger poll
stops dispatching (the trace is the successful survivors before the
failure, then the single failed attempt, nothing after), reports the
error, and returns the cursor of the last successfully handled event (the
incoming cursor when none succeeded); (b) the `pollEvents` loop stores and
persists that returned cursor for the trigger first, and only then
processes the remaining triggers, starting from the persisted state; (c)
the queries issued for the registered triggers are independent of handler
outcomes (with distinct trigger names), so a handler failure on one
trigger never prevents the remaining triggers from being processed in the
same cycle. -/
theorem claim_C5_event_handler_failure :
    (∀ (prov : EventsProvider) (hres : EventRec → Bool)
       (trigger : EventTrigger) (src : Option Nat) (fb : Nat) (fi : Int)
       (toB : Nat) (q : EventsFilter) (pre post : List EventRec)
       (e : EventRec),
      resolveSourceFromTrigger trigger = .ok src →
      q = { fromBlock := fb, toBlock := toB, address := src,
            topics := trigger.topics } →
      prov q = pre ++ e :: post →
      (∀ x ∈ pre, hres x = true) →
      ¬(e.blockNumber = fb ∧ i32ofNat e.index ≤ fi) →
      hres e = false →
      (pollEventsForTrigger prov hres trigger fb fi toB).ok = false ∧
      ((pollEventsForTrigger prov hres trigger fb fi toB).latestBlock,
       (pollEventsForTrigger prov hres trigger fb fi toB).latestEventIndex)
        = lastCursor fb fi (surviving fb fi pre) ∧
      (pollEventsForTrigger prov hres trigger fb fi toB).dispatches =
        (surviving fb fi pre).map (fun x => (x, true)) ++ [(e, false)]) ∧
    (∀ (prov : EventsProvider) (hres : EventHandlerByName)
       (t : EventTrigger) (rest : List EventTrigger) (md md1 : EventsMd)
       (toB fb : Nat) (fi : Int),
      resolveCursor t md = (fb, fi, md1) → fb ≤ toB →
      (runPollEvents prov hres (t :: rest) md toB).persists =
        aset md1 t.name
          { latestBlock :=
              (pollEventsForTrigger prov (hres t.name) t fb fi
                (clampTo toB fb)).latestBlock,
            latestEventIndex :=
              (pollEventsForTrigger prov (hres t.name) t fb fi
                (clampTo toB fb)).latestEventIndex } ::
          (runPollEvents prov hres rest
            (aset md1 t.name
              { latestBlock :=
                  (pollEventsForTrigger prov (hres t.name) t fb fi
                    (clampTo toB fb)).latestBlock,
                latestEventIndex :=
                  (pollEventsForTrigger prov (hres t.name) t fb fi
                    (clampTo toB fb)).latestEventIndex })
            (clampTo toB fb)).persists) ∧
    (∀ (prov : EventsProvider) (h1 h2 : EventHandlerByName)
       (triggers : List EventTrigger) (md : EventsMd) (toB : Nat),
      (triggers.map (fun t => t.name)).Nodup →
      (runPollEvents prov h1 triggers md toB).queries =
        (runPollEvents prov h2 triggers md toB).queries) := by
  refine ⟨?_, ?_, ?_⟩
  · intro prov hres trigger src fb fi toB q pre post e hsrc hq hprov hpre
      hsurv hfail
    subst hq
    unfold pollEventsForTrigger
    rw [hsrc]
    simp only
    rw [hprov, dispatchEvents_first_fail hres fb fi e post hsurv hfail
      pre fb fi hpre]
    exact ⟨rfl, rfl, rfl⟩
  · intro prov hres t rest md md1 toB fb fi hc hle
    rw [runPollEvents_cons prov hres t rest md md1 toB fb fi hc hle]
  · intro prov h1 h2 triggers md toB hnodup
    exact runPollEvents_queries_agree prov h1 h2 triggers md md toB hnodup
      (fun n _ => rfl)

/-- Concrete provider for the claim C5 witness: three events, of which the
second fails. -/
def c5prov : EventsProvider :=
  fun _ => [{ blockNumber := 10, index := 0 }, { blockNumber := 10, index := 1 },
            { blockNumber := 11, index := 0 }]

/-- Concrete handler for the claim C5 witness: fails exactly at event
(10, 1). -/
def c5hres : EventRec → Bool :=
  fun e => decide (¬(e.blockNumber = 10 ∧ e.index = 1))

/-- Concrete trigger for the claim C5 witness. -/
def c5trig : EventTrigger :=
  { name := "T", source := some 7, sourceResolver := none, topics := [],
    earliestBlock := 0 }

/-- Second concrete trigger for the claim C5 witness (queries continue). -/
def c5trig2 : EventTrigger :=
  { name := "U", source := some 8, sourceResolver := none, topics := [],
    earliestBlock := 0 }

/-- Witness for claim C5: with events (10,0) (10,1) (11,0) and a handler
failing at (10,1), the trigger poll from cursor (9,-1) over [9,20] reports
an error with cursor (10,0) after dispatching (10,0) success then (10,1)
failure; the loop persists exactly that entry; and the queries of a
two-trigger cycle are the same under the failing handler and an
all-success handler. -/
theorem claim_C5_witness :
    (pollEventsForTrigger c5prov c5hres c5trig 9 (-1) 20).ok = false ∧
    (pollEventsForTrigger c5prov c5hres c5trig 9 (-1) 20).latestBlock = 10 ∧
    (pollEventsForTrigger c5prov c5hres c5trig 9 (-1) 20).latestEventIndex
      = 0 ∧
    (pollEventsForTrigger c5prov c5hres c5trig 9 (-1) 20).dispatches =
      [({ blockNumber := 10, index := 0 }, true),
       ({ blockNumber := 10, index := 1 }, false)] ∧
    (runPollEvents c5prov (fun _ => c5hres) [c5trig]
      [("T", { latestBlock := 9, latestEventIndex := -1 })] 20).persists =
      [[("T", { latestBlock := 10, latestEventIndex := 0 })]] ∧
    (runPollEvents c5prov (fun _ => c5hres) [c5trig, c5trig2]
      [("T", { latestBlock := 9, latestEventIndex := -1 })] 20).queries =
    (runPollEvents c5prov (fun _ _ => true) [c5trig, c5trig2]
      [("T", { latestBlock := 9, latestEventIndex := -1 })] 20).queries := by
  have ha := claim_C5_event_handler_failure.1 c5prov c5hres c5trig (some 7)
    9 (-1) 20 { fromBlock := 9, toBlock := 20, address := some 7,
                topics := [] }
    [{ blockNumber := 10, index := 0 }] [{ blockNumber := 11, index := 0 }]
    { blockNumber := 10, index := 1 }
    rfl rfl rfl (by decide) (by decide) (by decide)
  have hcur : ((pollEventsForTrigger c5prov c5hres c5trig 9 (-1)
      20).latestBlock,
      (pollEventsForTrigger c5prov c5hres c5trig 9 (-1)
      20).latestEventIndex) = (10, 0) := by
    rw [ha.2.1]
    decide
  have hb := claim_C5_event_handler_failure.2.1 c5prov (fun _ => c5hres)
    c5trig [] [("T", { latestBlock := 9, latestEventIndex := -1 })]
    [("T", { latestBlock := 9, latestEventIndex := -1 })] 20 9 (-1)
    rfl (by omega)
  have hq := claim_C5_event_handler_failure.2.2 c5prov (fun _ => c5hres)
    (fun _ _ => true) [c5trig, c5trig2]
    [("T", { latestBlock := 9, latestEventIndex := -1 })] 20 (by decide)
  refine ⟨ha.1, congrArg Prod.fst hcur, congrArg Prod.snd hcur, ?_, ?_, hq⟩
  · rw [ha.2.2]
    decide
  · rw [hb]
    decide

/-! ## Claim C1: block walker failure isolation -/

/-- Exhaustive case description of one inner-loop step of `pollBlocks`. -/
theorem blockStepTrigger_cases (hres : BlockHandler) (h : Nat)
    (st : BlockWalkState) (v : BlockTrigger) :
    (v.name ∈ st.2.1 ∧ blockStepTrigger hres h st v = st) ∨
    (v.name ∉ st.2.1 ∧ mdGet st.1 v.name ≥ i32ofNat h ∧
      blockStepTrigger hres h st v = st) ∨
    (v.name ∉ st.2.1 ∧ mdGet st.1 v.name < i32ofNat h ∧
      hres v.name h = true ∧
      blockStepTrigger hres h st v =
        (aset st.1 v.name (i32ofNat h), st.2.1,
         st.2.2 ++ [(v.name, h, true)])) ∨
    (v.name ∉ st.2.1 ∧ mdGet st.1 v.name < i32ofNat h ∧
      hres v.name h = false ∧
      blockStepTrigger hres h st v =
        (st.1, v.name :: st.2.1, st.2.2 ++ [(v.name, h, false)])) := by
  obtain ⟨md, failed, tr⟩ := st
  unfold blockStepTrigger
  dsimp only
  by_cases h1 : v.name ∈ failed
  · left
    exact ⟨h1, by rw [if_pos h1]⟩
  · right
    by_cases h2 : mdGet md v.name ≥ i32ofNat h
    · left
      exact ⟨h1, h2, by rw [if_neg h1, if_pos h2]⟩
    · right
      by_cases h3 : hres v.name h = true
      · left
        exact ⟨h1, by omega, h3,
          by rw [if_neg h1, if_neg h2, if_pos h3]⟩
      · right
        refine ⟨h1, by omega, by simpa using h3, ?_⟩
        rw [if_neg h1, if_neg h2, if_neg h3]

/-- A name in the failed set stays failed, keeps its metadata entry and
receives no trace entries across the inner trigger loop. -/
theorem blockFold_frozen (hres : BlockHandler) (h : Nat) (n : String) :
    ∀ (L : List BlockTrigger) (st : BlockWalkState), n ∈ st.2.1 →
      alookup (L.foldl (blockStepTrigger hres h) st).1 n =
        alookup st.1 n ∧
      n ∈ (L.foldl (blockStepTrigger hres h) st).2.1 ∧
      (∀ e ∈ (L.foldl (blockStepTrigger hres h) st).2.2,
        e.1 = n → e ∈ st.2.2) := by
  intro L
  induction L with
  | nil => intro st hn; exact ⟨rfl, hn, fun e he _ => he⟩
  | cons v L ih =>
    intro st hn
    rw [List.foldl_cons]
    rcases blockStepTrigger_cases hres h st v with
      ⟨_, heq⟩ | ⟨_, _, heq⟩ | ⟨hnv, _, _, heq⟩ | ⟨hnv, _, _, heq⟩
    · rw [heq]; exact ih st hn
    · rw [heq]; exact ih st hn
    · rw [heq]
      have hne : v.name ≠ n := fun hvn => hnv (hvn ▸ hn)
      obtain ⟨ha, hb, hc⟩ := ih
        (aset st.1 v.name (i32ofNat h), st.2.1,
         st.2.2 ++ [(v.name, h, true)]) hn
      refine ⟨?_, hb, ?_⟩
      · rw [ha]
        exact alookup_aset_ne st.1 v.name n _ hne
      · intro e he hen
        rcases List.mem_append.mp (hc e he hen) with h1 | h1
        · exact h1
        · simp only [List.mem_singleton] at h1
          exact absurd (show v.name = n by rw [h1] at hen; exact hen) hne
    · rw [heq]
      have hne : v.name ≠ n := fun hvn => hnv (hvn ▸ hn)
      obtain ⟨ha, hb, hc⟩ := ih
        (st.1, v.name :: st.2.1, st.2.2 ++ [(v.name, h, false)])
        (List.mem_cons_of_mem v.name hn)
      refine ⟨ha, hb, ?_⟩
      intro e he hen
      rcases List.mem_append.mp (hc e he hen) with h1 | h1
      · exact h1
      · simp only [List.mem_singleton] at h1
        exact absurd (show v.name = n by rw [h1] at hen; exact hen) hne

/-- The failed set only grows across the inner trigger loop. -/
theorem blockFold_failed_mono (hres : BlockHandler) (h : Nat) (n : String) :
    ∀ (L : List BlockTrigger) (st : BlockWalkState), n ∈ st.2.1 →
      n ∈ (L.foldl (blockStepTrigger hres h) st).2.1 := by
  intro L
  induction L with
  | nil => intro st hn; exact hn
  | cons v L ih =>
    intro st hn
    rw [List.foldl_cons]
    rcases blockStepTrigger_cases hres h st v with
      ⟨_, heq⟩ | ⟨_, _, heq⟩ | ⟨_, _, _, heq⟩ | ⟨_, _, _, heq⟩ <;> rw [heq]
    · exact ih st hn
    · exact ih st hn
    · exact ih (aset st.1 v.name (i32ofNat h), st.2.1,
        st.2.2 ++ [(v.name, h, true)]) hn
    · exact ih (st.1, v.name :: st.2.1, st.2.2 ++ [(v.name, h, false)])
        (List.mem_cons_of_mem v.name hn)

/-- Every trace entry of an inner trigger loop is old or carries the loop's
height. -/
theorem blockFold_trace_height (hres : BlockHandler) (h : Nat) :
    ∀ (L : List BlockTrigger) (st : BlockWalkState),
      ∀ e ∈ (L.foldl (blockStepTrigger hres h) st).2.2,
        e ∈ st.2.2 ∨ e.2.1 = h := by
  intro L
  induction L with
  | nil => intro st e he; exact Or.inl he
  | cons v L ih =>
    intro st e he
    rw [List.foldl_cons] at he
    rcases blockStepTrigger_cases hres h st v with
      ⟨_, heq⟩ | ⟨_, _, heq⟩ | ⟨_, _, _, heq⟩ | ⟨_, _, _, heq⟩ <;>
        rw [heq] at he
    · exact ih st e he
    · exact ih st e he
    · rcases ih _ e he with h1 | h1
      · rcases List.mem_append.mp h1 with h2 | h2
        · exact Or.inl h2
        · simp only [List.mem_singleton] at h2
          right; rw [h2]
      · exact Or.inr h1
    · rcases ih _ e he with h1 | h1
      · rcases List.mem_append.mp h1 with h2 | h2
        · exact Or.inl h2
        · simp only [List.mem_singleton] at h2
          right; rw [h2]
      · exact Or.inr h1

/-- A failure entry in the inner loop trace is old, or the trigger is in
the failed set at the end of the loop with its watermark still below the
height. -/
theorem blockFold_fail_entry (hres : BlockHandler) (h : Nat) (n : String) :
    ∀ (L : List BlockTrigger) (st : BlockWalkState),
      (n, h, false) ∈ (L.foldl (blockStepTrigger hres h) st).2.2 →
      (n, h, false) ∈ st.2.2 ∨
      (n ∈ (L.foldl (blockStepTrigger hres h) st).2.1 ∧
       mdGet (L.foldl (blockStepTrigger hres h) st).1 n < i32ofNat h) := by
  intro L
  induction L with
  | nil => intro st he; exact Or.inl he
  | cons v L ih =>
    intro st he
    rw [List.foldl_cons] at he ⊢
    rcases blockStepTrigger_cases hres h st v with
      ⟨_, heq⟩ | ⟨_, _, heq⟩ | ⟨_, hlt, _, heq⟩ | ⟨_, hlt, _, heq⟩ <;>
        rw [heq] at he ⊢
    · exact ih st he
    · exact ih st he
    · rcases ih _ he with h1 | h1
      · rcases List.mem_append.mp h1 with h2 | h2
        · exact Or.inl h2
        · simp only [List.mem_singleton, Prod.mk.injEq] at h2
          exact absurd h2.2.2 (by simp)
      · exact Or.inr h1
    · rcases ih _ he with h1 | h1
      · rcases List.mem_append.mp h1 with h2 | h2
        · exact Or.inl h2
        · simp only [List.mem_singleton, Prod.mk.injEq] at h2
          have hvn : v.name = n := h2.1.symm
          have hmem : n ∈ ((st.1, v.name :: st.2.1,
              st.2.2 ++ [(v.name, h, false)]) : BlockWalkState).2.1 := by
            dsimp only
            rw [hvn]
            exact List.mem_cons_self n st.2.1
          obtain ⟨ha, hb, _⟩ := blockFold_frozen hres h n L _ hmem
          refine Or.inr ⟨hb, ?_⟩
          unfold mdGet
          rw [ha]
          dsimp only
          rw [hvn] at hlt
          exact hlt
      · exact Or.inr h1

/-- Unfolding of one height of the `pollBlocks` walk. -/
theorem runPollBlocksRange_cons (hres : BlockHandler)
    (triggers : List BlockTrigger) (h : Nat) (hs : List Nat)
    (md : BlocksMd) (failed : List String) :
    runPollBlocksRange hres triggers (h :: hs) md failed =
      (let st := blockStepHeight hres triggers h (md, failed, [])
       let rest := runPollBlocksRange hres triggers hs st.1 st.2.1
       (rest.1, rest.2.1, st.2.2 ++ rest.2.2.1, st.1 :: rest.2.2.2)) := rfl

/-- A name in the failed set stays failed for the rest of the walk: its
metadata entry is unchanged and it receives no further trace entries. -/
theorem runBlocks_frozen (hres : BlockHandler)
    (triggers : List BlockTrigger) (n : String) :
    ∀ (hs : List Nat) (md : BlocksMd) (failed : List String), n ∈ failed →
      alookup (runPollBlocksRange hres triggers hs md failed).1 n =
        alookup md n ∧
      n ∈ (runPollBlocksRange hres triggers hs md failed).2.1 ∧
      (∀ e ∈ (runPollBlocksRange hres triggers hs md failed).2.2.1,
        e.1 ≠ n) := by
  intro hs
  induction hs with
  | nil =>
    intro md failed hn
    exact ⟨rfl, hn, fun e he => absurd he (List.not_mem_nil e)⟩
  | cons h hs ih =>
    intro md failed hn
    rw [runPollBlocksRange_cons]
    have hst := blockFold_frozen hres h n triggers (md, failed, []) hn
    obtain ⟨ha, hb, hc⟩ := hst
    obtain ⟨ha2, hb2, hc2⟩ := ih
      (blockStepHeight hres triggers h (md, failed, [])).1
      (blockStepHeight hres triggers h (md, failed, [])).2.1 hb
    refine ⟨by rw [ha2]; exact ha, hb2, ?_⟩
    intro e he
    rcases List.mem_append.mp he with h1 | h1
    · intro hen
      exact absurd (hc e h1 hen) (List.not_mem_nil _)
    · exact hc2 e h1

/-- Every trace entry's height belongs to the walked height list. -/
theorem runBlocks_trace_mem (hres : BlockHandler)
    (triggers : List BlockTrigger) :
    ∀ (hs : List Nat) (md : BlocksMd) (failed : List String),
      ∀ e ∈ (runPollBlocksRange hres triggers hs md failed).2.2.1,
        e.2.1 ∈ hs := by
  intro hs
  induction hs with
  | nil =>
    intro md failed e he
    exact absurd he (List.not_mem_nil e)
  | cons h hs ih =>
    intro md failed e he
    rw [runPollBlocksRange_cons] at he
    rcases List.mem_append.mp he with h1 | h1
    · rcases blockFold_trace_height hres h triggers (md, failed, []) e h1
        with h2 | h2
      · exact absurd h2 (List.not_mem_nil e)
      · rw [h2]; exact List.mem_cons_self h hs
    · exact List.mem_cons_of_mem h (ih _ _ e h1)

/-- Failure isolation along a walk over strictly ascending heights: after a
trigger's handler fails at height h0, the trigger is in the failed set, its
watermark stays below h0, and no trace entry for it has a height beyond
h0. -/
theorem runBlocks_fail_isolation (hres : BlockHandler)
    (triggers : List BlockTrigger) (n : String) :
    ∀ (hs : List Nat) (md : BlocksMd) (failed : List String),
      hs.Pairwise (· < ·) →
      ∀ h0, (n, h0, false) ∈
          (runPollBlocksRange hres triggers hs md failed).2.2.1 →
        n ∈ (runPollBlocksRange hres triggers hs md failed).2.1 ∧
        mdGet (runPollBlocksRange hres triggers hs md failed).1 n <
          i32ofNat h0 ∧
        (∀ h2 b, (n, h2, b) ∈
            (runPollBlocksRange hres triggers hs md failed).2.2.1 →
          h2 ≤ h0) := by
  intro hs
  induction hs with
  | nil =>
    intro md failed _ h0 he
    exact absurd he (List.not_mem_nil _)
  | cons h hs ih =>
    intro md failed hpair h0 he
    have hlt : ∀ x ∈ hs, h < x := (List.pairwise_cons.mp hpair).1
    have hpair2 : hs.Pairwise (· < ·) := (List.pairwise_cons.mp hpair).2
    rw [runPollBlocksRange_cons] at he ⊢
    rcases List.mem_append.mp he with h1 | h1
    · -- the failure happened at this height, so h0 = h
      have hh0 : h0 = h := by
        rcases blockFold_trace_height hres h triggers (md, failed, [])
          (n, h0, false) h1 with h2 | h2
        · exact absurd h2 (List.not_mem_nil _)
        · exact h2
      subst hh0
      rcases blockFold_fail_entry hres h0 n triggers (md, failed, []) h1
        with h2 | ⟨hf, hmd⟩
      · exact absurd h2 (List.not_mem_nil _)
      · obtain ⟨ha2, hb2, hc2⟩ := runBlocks_frozen hres triggers n hs
          (blockStepHeight hres triggers h0 (md, failed, [])).1
          (blockStepHeight hres triggers h0 (md, failed, [])).2.1 hf
        refine ⟨hb2, ?_, ?_⟩
        · unfold mdGet
          rw [ha2]
          exact hmd
        · intro h2 b hmem
          rcases List.mem_append.mp hmem with h3 | h3
          · rcases blockFold_trace_height hres h0 triggers (md, failed, [])
              (n, h2, b) h3 with h4 | h4
            · exact absurd h4 (List.not_mem_nil _)
            · exact le_of_eq h4
          · exact absurd rfl (hc2 (n, h2, b) h3)
    · -- the failure happened at a later height
      obtain ⟨ha2, hb2, hc2⟩ := ih
        (blockStepHeight hres triggers h (md, failed, [])).1
        (blockStepHeight hres triggers h (md, failed, [])).2.1 hpair2 h0 h1
      have hh0 : h < h0 := by
        have := runBlocks_trace_mem hres triggers hs _ _ (n, h0, false) h1
        exact hlt h0 this
      refine ⟨ha2, hb2, ?_⟩
      intro h2 b hmem
      rcases List.mem_append.mp hmem with h3 | h3
      · rcases blockFold_trace_height hres h triggers (md, failed, [])
          (n, h2, b) h3 with h4 | h4
        · exact absurd h4 (List.not_mem_nil _)
        · have h5 : h2 = h := h4
          omega
      · exact hc2 h2 b h3

/-- Triggers with other names do not affect a given name's metadata entry,
failed status, or trace entries. -/
theorem blockFold_other (hres : BlockHandler) (h : Nat) (n : String) :
    ∀ (L : List BlockTrigger) (st : BlockWalkState),
      (∀ v ∈ L, v.name ≠ n) →
      alookup (L.foldl (blockStepTrigger hres h) st).1 n =
        alookup st.1 n ∧
      (n ∈ (L.foldl (blockStepTrigger hres h) st).2.1 ↔ n ∈ st.2.1) ∧
      ∃ d, (L.foldl (blockStepTrigger hres h) st).2.2 = st.2.2 ++ d ∧
        ∀ e ∈ d, e.1 ≠ n := by
  intro L
  induction L with
  | nil =>
    intro st _
    exact ⟨rfl, Iff.rfl, [], (List.append_nil st.2.2).symm,
      fun e he => absurd he (List.not_mem_nil e)⟩
  | cons v L ih =>
    intro st hL
    have hvn : v.name ≠ n := hL v (List.mem_cons_self v L)
    have hL2 : ∀ w ∈ L, w.name ≠ n :=
      fun w hw => hL w (List.mem_cons_of_mem v hw)
    rw [List.foldl_cons]
    rcases blockStepTrigger_cases hres h st v with
      ⟨_, heq⟩ | ⟨_, _, heq⟩ | ⟨_, _, _, heq⟩ | ⟨_, _, _, heq⟩ <;> rw [heq]
    · exact ih st hL2
    · exact ih st hL2
    · obtain ⟨ha, hb, d, hd, hdn⟩ := ih
        (aset st.1 v.name (i32ofNat h), st.2.1,
         st.2.2 ++ [(v.name, h, true)]) hL2
      refine ⟨?_, hb, (v.name, h, true) :: d, ?_, ?_⟩
      · rw [ha]
        exact alookup_aset_ne st.1 v.name n _ hvn
      · rw [hd]
        dsimp only
        rw [List.append_assoc]
        rfl
      · intro e he
        rcases List.mem_cons.mp he with h1 | h1
        · rw [h1]; exact hvn
        · exact hdn e h1
    · obtain ⟨ha, hb, d, hd, hdn⟩ := ih
        (st.1, v.name :: st.2.1, st.2.2 ++ [(v.name, h, false)]) hL2
      refine ⟨ha, ?_, (v.name, h, false) :: d, ?_, ?_⟩
      · rw [hb]
        dsimp only
        constructor
        · intro h1
          rcases List.mem_cons.mp h1 with h2 | h2
          · exact absurd h2.symm hvn
          · exact h2
        · exact List.mem_cons_of_mem v.name
      · rw [hd]
        dsimp only
        rw [List.append_assoc]
        rfl
      · intro e he
        rcases List.mem_cons.mp he with h1 | h1
        · rw [h1]; exact hvn
        · exact hdn e h1

/-- One trigger's step behaves identically on two states that agree on that
trigger's metadata entry and failed status: same resulting entry and
status, and the same appended trace delta (whose entries all carry the
trigger's name). -/
theorem blockStepTrigger_pair (hres : BlockHandler) (h : Nat)
    (u : BlockTrigger) (mdf mds : BlocksMd) (ff fs : List String)
    (trf trs : List (String × Nat × Bool))
    (hmd : alookup mdf u.name = alookup mds u.name)
    (hfd : u.name ∈ ff ↔ u.name ∈ fs) :
    alookup (blockStepTrigger hres h (mdf, ff, trf) u).1 u.name =
      alookup (blockStepTrigger hres h (mds, fs, trs) u).1 u.name ∧
    (u.name ∈ (blockStepTrigger hres h (mdf, ff, trf) u).2.1 ↔
      u.name ∈ (blockStepTrigger hres h (mds, fs, trs) u).2.1) ∧
    ∃ d, (blockStepTrigger hres h (mdf, ff, trf) u).2.2 = trf ++ d ∧
      (blockStepTrigger hres h (mds, fs, trs) u).2.2 = trs ++ d ∧
      ∀ e ∈ d, e.1 = u.name := by
  have hget : mdGet mdf u.name = mdGet mds u.name := by
    unfold mdGet; rw [hmd]
  unfold blockStepTrigger
  dsimp only
  by_cases h1 : u.name ∈ ff
  · rw [if_pos h1, if_pos (hfd.mp h1)]
    exact ⟨hmd, hfd, [], (List.append_nil trf).symm,
      (List.append_nil trs).symm, fun e he => absurd he (List.not_mem_nil e)⟩
  · rw [if_neg h1, if_neg (fun hx => h1 (hfd.mpr hx))]
    by_cases h2 : mdGet mdf u.name ≥ i32ofNat h
    · rw [if_pos h2, if_pos (hget ▸ h2)]
      exact ⟨hmd, hfd, [], (List.append_nil trf).symm,
        (List.append_nil trs).symm,
        fun e he => absurd he (List.not_mem_nil e)⟩
    · rw [if_neg h2, if_neg (fun hx => h2 (hget ▸ hx))]
      by_cases h3 : hres u.name h = true
      · rw [if_pos h3, if_pos h3]
        refine ⟨?_, hfd, [(u.name, h, true)], rfl, rfl, ?_⟩
        · rw [alookup_aset_self, alookup_aset_self]
        · intro e he
          rcases List.mem_cons.mp he with h4 | h4
          · rw [h4]
          · exact absurd h4 (List.not_mem_nil e)
      · rw [if_neg h3, if_neg h3]
        refine ⟨hmd, ?_, [(u.name, h, false)], rfl, rfl, ?_⟩
        · constructor
          · intro _; exact List.mem_cons_self u.name fs
          · intro _; exact List.mem_cons_self u.name ff
        · intro e he
          rcases List.mem_cons.mp he with h4 | h4
          · rw [h4]
          · exact absurd h4 (List.not_mem_nil e)

/-- One height of the walk, projected to a single trigger `u`: the full
trigger list (others having different names) behaves for `u` exactly like
the singleton list `[u]`, producing the same entry, failed status and the
same `u`-trace delta. -/
theorem blockStepHeight_pair (hres : BlockHandler) (h : Nat)
    (u : BlockTrigger) (P Q : List BlockTrigger)
    (hP : ∀ v ∈ P, v.name ≠ u.name) (hQ : ∀ v ∈ Q, v.name ≠ u.name)
    (mdf mds : BlocksMd) (ff fs : List String)
    (trf trs : List (String × Nat × Bool))
    (hmd : alookup mdf u.name = alookup mds u.name)
    (hfd : u.name ∈ ff ↔ u.name ∈ fs) :
    alookup (blockStepHeight hres (P ++ u :: Q) h (mdf, ff, trf)).1 u.name =
      alookup (blockStepHeight hres [u] h (mds, fs, trs)).1 u.name ∧
    (u.name ∈ (blockStepHeight hres (P ++ u :: Q) h (mdf, ff, trf)).2.1 ↔
      u.name ∈ (blockStepHeight hres [u] h (mds, fs, trs)).2.1) ∧
    ∃ d df,
      (blockStepHeight hres (P ++ u :: Q) h (mdf, ff, trf)).2.2 =
        trf ++ df ∧
      (blockStepHeight hres [u] h (mds, fs, trs)).2.2 = trs ++ d ∧
      df.filter (fun e => decide (e.1 = u.name)) = d := by
  unfold blockStepHeight
  rw [List.foldl_append, List.foldl_cons, List.foldl_cons, List.foldl_nil]
  have hfullP := blockFold_other hres h u.name P (mdf, ff, trf) hP
  rcases hsplitP : P.foldl (blockStepTrigger hres h) (mdf, ff, trf) with
    ⟨mdP, fP, trP⟩
  rw [hsplitP] at hfullP
  obtain ⟨haP, hbP, dP, hdP, hnP⟩ := hfullP
  have hmdP : alookup mdP u.name = alookup mds u.name := by
    rw [← hmd]; exact haP
  have hfdP : u.name ∈ fP ↔ u.name ∈ ff := hbP
  have hpair := blockStepTrigger_pair hres h u mdP mds fP fs trP trs hmdP
    (hfdP.trans hfd)
  rcases hsplitU : blockStepTrigger hres h (mdP, fP, trP) u with
    ⟨mdU, fU, trU⟩
  rcases hsplitS : blockStepTrigger hres h (mds, fs, trs) u with
    ⟨mdS, fS, trS⟩
  rw [hsplitU, hsplitS] at hpair
  obtain ⟨haU, hbU, du, hduF, hduS, hdu_names⟩ := hpair
  have hfullQ := blockFold_other hres h u.name Q (mdU, fU, trU) hQ
  obtain ⟨haQ, hbQ, dQ, hdQ, hnQ⟩ := hfullQ
  refine ⟨by rw [haQ]; exact haU, hbQ.trans hbU, du, dP ++ (du ++ dQ),
    ?_, hduS, ?_⟩
  · rw [hdQ]
    dsimp only at hduF hdP ⊢
    rw [hduF, hdP]
    rw [List.append_assoc, List.append_assoc]
  · rw [List.filter_append, List.filter_append]
    have h1 : dP.filter (fun e => decide (e.1 = u.name)) = [] := by
      rw [List.filter_eq_nil_iff]
      intro e he
      simp only [decide_eq_true_eq]
      exact hnP e he
    have h2 : dQ.filter (fun e => decide (e.1 = u.name)) = [] := by
      rw [List.filter_eq_nil_iff]
      intro e he
      simp only [decide_eq_true_eq]
      exact hnQ e he
    have h3 : du.filter (fun e => decide (e.1 = u.name)) = du := by
      rw [List.filter_eq_self]
      intro e he
      simp only [decide_eq_true_eq]
      exact hdu_names e he
    rw [h1, h2, h3, List.append_nil, List.nil_append]

/-- The whole walk, projected to a single trigger `u` with a unique name:
the full run gives `u` the same final metadata entry and failed status as a
run over `[u]` alone, and the `u`-entries of the full trace are exactly the
trace of the `[u]` run. -/
theorem runBlocks_pair (hres : BlockHandler) (u : BlockTrigger)
    (P Q : List BlockTrigger)
    (hP : ∀ v ∈ P, v.name ≠ u.name) (hQ : ∀ v ∈ Q, v.name ≠ u.name) :
    ∀ (hs : List Nat) (mdf mds : BlocksMd) (ff fs : List String),
      alookup mdf u.name = alookup mds u.name →
      (u.name ∈ ff ↔ u.name ∈ fs) →
      alookup (runPollBlocksRange hres (P ++ u :: Q) hs mdf ff).1 u.name =
        alookup (runPollBlocksRange hres [u] hs mds fs).1 u.name ∧
      (u.name ∈ (runPollBlocksRange hres (P ++ u :: Q) hs mdf ff).2.1 ↔
        u.name ∈ (runPollBlocksRange hres [u] hs mds fs).2.1) ∧
      (runPollBlocksRange hres (P ++ u :: Q) hs mdf ff).2.2.1.filter
          (fun e => decide (e.1 = u.name)) =
        (runPollBlocksRange hres [u] hs mds fs).2.2.1 := by
  intro hs
  induction hs with
  | nil =>
    intro mdf mds ff fs hmd hfd
    exact ⟨hmd, hfd, rfl⟩
  | cons h hs ih =>
    intro mdf mds ff fs hmd hfd
    obtain ⟨ha, hb, d, df, hdff, hdss, hfil⟩ :=
      blockStepHeight_pair hres h u P Q hP hQ mdf mds ff fs [] [] hmd hfd
    obtain ⟨ha2, hb2, hc2⟩ := ih
      (blockStepHeight hres (P ++ u :: Q) h (mdf, ff, [])).1
      (blockStepHeight hres [u] h (mds, fs, [])).1
      (blockStepHeight hres (P ++ u :: Q) h (mdf, ff, [])).2.1
      (blockStepHeight hres [u] h (mds, fs, [])).2.1 ha hb
    refine ⟨ha2, hb2, ?_⟩
    show ((blockStepHeight hres (P ++ u :: Q) h (mdf, ff, [])).2.2 ++
        (runPollBlocksRange hres (P ++ u :: Q) hs
          (blockStepHeight hres (P ++ u :: Q) h (mdf, ff, [])).1
          (blockStepHeight hres (P ++ u :: Q) h
            (mdf, ff, [])).2.1).2.2.1).filter
        (fun e => decide (e.1 = u.name)) =
      (blockStepHeight hres [u] h (mds, fs, [])).2.2 ++
        (runPollBlocksRange hres [u] hs
          (blockStepHeight hres [u] h (mds, fs, [])).1
          (blockStepHeight hres [u] h (mds, fs, [])).2.1).2.2.1
    rw [List.filter_append, hc2, hdff, hdss]
    simp only [List.nil_append]
    rw [hfil]

/-- The heights walked by the block walker are strictly ascending. -/
theorem range'_pairwise_lt (s n : Nat) :
    (List.range' s n).Pairwise (· < ·) := by
  induction n generalizing s with
  | zero => exact List.Pairwise.nil
  | succ n ih =>
    rw [List.range'_succ]
    refine List.pairwise_cons.mpr ⟨?_, ih (s + 1)⟩
    intro x hx
    have := List.mem_range'_1.mp hx
    omega

/-- Handler outcomes for the claim C1 concrete scenario: trigger A fails
exactly at height 50, trigger B always succeeds. -/
def hresC1 : BlockHandler :=
  fun n h => if n = "A" then decide (h ≠ 50) else true

set_option maxRecDepth 4000 in
/-- Claim C1: block walker failure isolation.  (a) After a trigger's
handler fails at height h0 during a walk of `from..to`, that trigger is in
the cycle's failed set, its watermark stays strictly below h0, and it is
invoked at no height beyond h0 in this cycle.  (b) Any trigger with a
unique name is processed exactly as if it were the only registered
trigger: same final watermark entry and same invocation trace (so every
other trigger continues to be invoked and advances on success, unaffected
by failures elsewhere).  (c) Concretely, walking 31..60 from watermarks
A=30, B=30 with A failing at 50 and B always succeeding ends with A=49 and
B=60, and the next cycle's `from` is 50. -/
theorem claim_C1_block_failure_isolation :
    (∀ (hres : BlockHandler) (triggers : List BlockTrigger)
       (from_ toB : Nat) (md : BlocksMd) (n : String) (h0 : Nat),
      (n, h0, false) ∈
        (runPollBlocksRange hres triggers (heightsRange from_ toB)
          md []).2.2.1 →
      n ∈ (runPollBlocksRange hres triggers (heightsRange from_ toB)
          md []).2.1 ∧
      mdGet (runPollBlocksRange hres triggers (heightsRange from_ toB)
          md []).1 n < i32ofNat h0 ∧
      (∀ h2 b, (n, h2, b) ∈
          (runPollBlocksRange hres triggers (heightsRange from_ toB)
            md []).2.2.1 → h2 ≤ h0)) ∧
    (∀ (hres : BlockHandler) (triggers : List BlockTrigger)
       (u : BlockTrigger) (hs : List Nat) (md : BlocksMd),
      u ∈ triggers → (triggers.map (fun t => t.name)).Nodup →
      alookup (runPollBlocksRange hres triggers hs md []).1 u.name =
        alookup (runPollBlocksRange hres [u] hs md []).1 u.name ∧
      (runPollBlocksRange hres triggers hs md []).2.2.1.filter
          (fun e => decide (e.1 = u.name)) =
        (runPollBlocksRange hres [u] hs md []).2.2.1) ∧
    ((pollBlocks hresC1
        [{ name := "A", earliestBlock := 0 },
         { name := "B", earliestBlock := 0 }] (-1)
        [("A", 30), ("B", 30)] 60).1 = [("A", 49), ("B", 60)] ∧
     (calculateBlocksFrom (-1) [("A", 49), ("B", 60)]).1 = 50) := by
  refine ⟨?_, ?_, ?_, ?_⟩
  · intro hres triggers from_ toB md n h0 he
    exact runBlocks_fail_isolation hres triggers n
      (heightsRange from_ toB) md [] (range'_pairwise_lt _ _) h0 he
  · intro hres triggers u hs md hu hnodup
    obtain ⟨P, Q, hdecomp⟩ := List.append_of_mem hu
    subst hdecomp
    rw [List.map_append, List.map_cons] at hnodup
    have hdisj := List.disjoint_of_nodup_append hnodup
    have hQn : u.name ∉ Q.map (fun t => t.name) :=
      (List.nodup_cons.mp (hnodup.of_append_right)).1
    have hPn : u.name ∉ P.map (fun t => t.name) :=
      fun hmem => hdisj hmem (List.mem_cons_self _ _)
    have hP : ∀ v ∈ P, v.name ≠ u.name :=
      fun v hv heq => hPn (List.mem_map.mpr ⟨v, hv, heq⟩)
    have hQ : ∀ v ∈ Q, v.name ≠ u.name :=
      fun v hv heq => hQn (List.mem_map.mpr ⟨v, hv, heq⟩)
    obtain ⟨h1, _, h3⟩ := runBlocks_pair hres u P Q hP hQ hs md md [] []
      rfl Iff.rfl
    exact ⟨h1, h3⟩
  · decide
  · decide

set_option maxRecDepth 4000 in
/-- Witness for claim C1 at the concrete A/B scenario: A's failure entry at
height 50 yields a final watermark below 50 and no invocation beyond 50,
and B's watermark and trace equal those of a B-only walk. -/
theorem claim_C1_witness :
    (("A", (50 : Nat), false) ∈
      (runPollBlocksRange hresC1
        [{ name := "A", earliestBlock := 0 },
         { name := "B", earliestBlock := 0 }]
        (heightsRange 31 60) [("A", 30), ("B", 30)] []).2.2.1 ∧
     mdGet (runPollBlocksRange hresC1
        [{ name := "A", earliestBlock := 0 },
         { name := "B", earliestBlock := 0 }]
        (heightsRange 31 60) [("A", 30), ("B", 30)] []).1 "A" <
       i32ofNat 50) ∧
    alookup (runPollBlocksRange hresC1
        [{ name := "A", earliestBlock := 0 },
         { name := "B", earliestBlock := 0 }]
        (heightsRange 31 60) [("A", 30), ("B", 30)] []).1 "B" =
      alookup (runPollBlocksRange hresC1
        [{ name := "B", earliestBlock := 0 }]
        (heightsRange 31 60) [("A", 30), ("B", 30)] []).1 "B" := by
  have hmem : ("A", (50 : Nat), false) ∈
      (runPollBlocksRange hresC1
        [{ name := "A", earliestBlock := 0 },
         { name := "B", earliestBlock := 0 }]
        (heightsRange 31 60) [("A", 30), ("B", 30)] []).2.2.1 := by decide
  have ha := (claim_C1_block_failure_isolation.1 hresC1
    [{ name := "A", earliestBlock := 0 },
     { name := "B", earliestBlock := 0 }] 31 60
    [("A", 30), ("B", 30)] "A" 50 hmem).2.1
  have hb := (claim_C1_block_failure_isolation.2.1 hresC1
    [{ name := "A", earliestBlock := 0 },
     { name := "B", earliestBlock := 0 }]
    { name := "B", earliestBlock := 0 } (heightsRange 31 60)
    [("A", 30), ("B", 30)] (by decide) (by decide)).1
  exact ⟨⟨hmem, ha⟩, hb⟩

/-! ## Claim C7: watermark monotonicity -/

/-- Pointwise order on blocks watermarks: every present entry keeps an
entry with a value at least as large. -/
def mdLe (m1 m2 : BlocksMd) : Prop :=
  ∀ n v, alookup m1 n = some v → ∃ w, alookup m2 n = some w ∧ v ≤ w

theorem mdLe_refl (m : BlocksMd) : mdLe m m :=
  fun _ v hv => ⟨v, hv, le_refl v⟩

/-- One trigger step never decreases a blocks watermark entry. -/
theorem blockStepTrigger_mdLe (hres : BlockHandler) (h : Nat)
    (st : BlockWalkState) (v : BlockTrigger) :
    mdLe st.1 (blockStepTrigger hres h st v).1 := by
  rcases blockStepTrigger_cases hres h st v with
    ⟨_, heq⟩ | ⟨_, _, heq⟩ | ⟨_, hlt, _, heq⟩ | ⟨_, _, _, heq⟩ <;> rw [heq]
  · exact mdLe_refl st.1
  · exact mdLe_refl st.1
  · intro n w hw
    by_cases hn : n = v.name
    · refine ⟨i32ofNat h, ?_, ?_⟩
      · rw [hn]
        exact alookup_aset_self st.1 v.name (i32ofNat h)
      · have hg : mdGet st.1 v.name = w := by
          unfold mdGet
          rw [← hn, hw]
          rfl
        omega
    · exact ⟨w, by
        rw [alookup_aset_ne st.1 v.name n _ (fun hx => hn hx.symm)]
        exact hw, le_refl w⟩
  · exact mdLe_refl st.1

theorem mdLe_trans {a b c : BlocksMd} (h1 : mdLe a b) (h2 : mdLe b c) :
    mdLe a c := by
  intro n v hv
  obtain ⟨w, hw, hvw⟩ := h1 n v hv
  obtain ⟨x, hx, hwx⟩ := h2 n w hw
  exact ⟨x, hx, le_trans hvw hwx⟩

/-- A whole height step never decreases a blocks watermark entry. -/
theorem blockStepHeight_mdLe (hres : BlockHandler)
    (triggers : List BlockTrigger) (h : Nat) :
    ∀ (st : BlockWalkState),
      mdLe st.1 (blockStepHeight hres triggers h st).1 := by
  unfold blockStepHeight
  induction triggers with
  | nil => intro st; exact mdLe_refl st.1
  | cons v L ih =>
    intro st
    rw [List.foldl_cons]
    exact mdLe_trans (blockStepTrigger_mdLe hres h st v)
      (ih (blockStepTrigger hres h st v))

/-- The persisted blocks watermark states of a walk form a nondecreasing
chain starting from the incoming state. -/
theorem runBlocks_monotone (hres : BlockHandler)
    (triggers : List BlockTrigger) :
    ∀ (hs : List Nat) (md : BlocksMd) (failed : List String),
      List.Chain mdLe md
        (runPollBlocksRange hres triggers hs md failed).2.2.2 := by
  intro hs
  induction hs with
  | nil => intro md failed; exact List.Chain.nil
  | cons h hs ih =>
    intro md failed
    rw [runPollBlocksRange_cons]
    exact List.Chain.cons
      (blockStepHeight_mdLe hres triggers h (md, failed, []))
      (ih (blockStepHeight hres triggers h (md, failed, [])).1
        (blockStepHeight hres triggers h (md, failed, [])).2.1)

/-- With no pending override, `calculateBlocksFrom` leaves the metadata
unchanged. -/
theorem calculateBlocksFrom_no_override (md : BlocksMd) :
    (calculateBlocksFrom (-1) md).2.1 = md := by
  unfold calculateBlocksFrom
  rw [if_neg (by omega)]
  split <;> rfl

/-- With no pending override, every persisted state of a `pollBlocks`
cycle is pointwise at least the incoming watermark, and the persisted
states are a nondecreasing chain. -/
theorem pollBlocks_monotone (hres : BlockHandler)
    (triggers : List BlockTrigger) (md : BlocksMd) (toB : Nat) :
    List.Chain mdLe md (pollBlocks hres triggers (-1) md toB).2.2.2 := by
  unfold pollBlocks
  dsimp only
  rw [calculateBlocksFrom_no_override]
  split
  · exact List.Chain.nil
  · exact runBlocks_monotone hres triggers _ md []

/-- The persisted values of the tx walk accumulate one `int32(height)` per
walked height. -/
theorem pollTxs_fold_persists (txsOf : Nat → List TxRec)
    (triggers : List TxTrigger) :
    ∀ (l : List Nat) (acc : Int × List (String × Nat × Nat) × List Int),
      (l.foldl
        (fun acc h =>
          (i32ofNat h, acc.2.1 ++ pollBlockTxs txsOf triggers h,
           acc.2.2 ++ [i32ofNat h])) acc).2.2 =
        acc.2.2 ++ l.map i32ofNat := by
  intro l
  induction l with
  | nil => intro acc; exact (List.append_nil acc.2.2).symm
  | cons h l ih =>
    intro acc
    rw [List.foldl_cons, List.map_cons, ih]
    dsimp only
    rw [List.append_assoc]
    rfl

/-- An ascending height range below 2^31 maps to an ascending chain of
int32 values. -/
theorem chain_le_map_range' :
    ∀ (n s : Nat) (x : Int), x < (s : Int) → s + n ≤ 2147483648 →
      List.Chain (· ≤ ·) x ((List.range' s n).map i32ofNat) := by
  intro n
  induction n with
  | zero => intro s x _ _; exact List.Chain.nil
  | succ n ih =>
    intro s x hx hbound
    rw [List.range'_succ, List.map_cons]
    have hs : i32ofNat s = (s : Int) := i32ofNat_eq_self (by omega)
    refine List.Chain.cons (by rw [hs]; omega) ?_
    rw [hs]
    exact ih (s + 1) s (by omega) (by omega)

/-- With no pending override, the transactions watermark persists of a
`pollTxs` cycle form a nondecreasing chain starting from the incoming
watermark. -/
theorem pollTxs_monotone (txsOf : Nat → List TxRec)
    (triggers : List TxTrigger) (mdLatest : Int) (toB : Nat)
    (hmd1 : -1 ≤ mdLatest) (hmd2 : mdLatest < 2147483647)
    (htoB : toB < 2147483648) :
    List.Chain (· ≤ ·) mdLatest
      (runPollTxs txsOf triggers (-1) mdLatest toB).2.2.2 := by
  unfold runPollTxs
  dsimp only
  rw [if_neg (show ¬((-1 : Int) ≠ -1) by omega)]
  dsimp only
  have hfrom : u32ofInt (mdLatest + 1) = (mdLatest + 1).toNat :=
    u32ofInt_eq_toNat (by omega) (by omega)
  split
  · exact List.Chain.nil
  · rw [pollTxs_fold_persists txsOf triggers
      (heightsRange (u32ofInt (mdLatest + 1)) toB) (mdLatest, [], [])]
    simp only [List.nil_append]
    unfold heightsRange
    refine chain_le_map_range' _ _ _ ?_ ?_
    · rw [hfrom]; omega
    · rw [hfrom]; omega

/-- Lexicographic order on event cursors `(block, index)`. -/
def pairGe (x y : Nat × Int) : Prop :=
  y.1 < x.1 ∨ (y.1 = x.1 ∧ y.2 ≤ x.2)

theorem pairGe_refl (x : Nat × Int) : pairGe x x :=
  Or.inr ⟨rfl, le_refl _⟩

/-- The dispatch loop's cursor never moves lexicographically below the
window start, provided the provider only returns events at or after the
window start. -/
theorem dispatchEvents_cursor_ge (hres : EventRec → Bool) (fb : Nat)
    (fi : Int) :
    ∀ (l : List EventRec) (lb : Nat) (li : Int),
      pairGe (lb, li) (fb, fi) →
      (∀ e ∈ l, fb ≤ e.blockNumber) →
      ∀ lb2 li2,
        (dispatchEvents hres fb fi l lb li).1 = some (lb2, li2) →
        pairGe (lb2, li2) (fb, fi) := by
  intro l
  induction l with
  | nil =>
    intro lb li _ _ lb2 li2 hsome
    exact absurd hsome (by unfold dispatchEvents; simp)
  | cons e rest ih =>
    intro lb li hge hrange lb2 li2 hsome
    have hrange2 : ∀ x ∈ rest, fb ≤ x.blockNumber :=
      fun x hx => hrange x (List.mem_cons_of_mem e hx)
    unfold dispatchEvents at hsome
    by_cases hseen : e.blockNumber = fb ∧ i32ofNat e.index ≤ fi
    · rw [if_pos hseen] at hsome
      exact ih lb li hge hrange2 lb2 li2 hsome
    · rw [if_neg hseen] at hsome
      by_cases hok : hres e = true
      · rw [if_pos hok] at hsome
        have hnew : pairGe (e.blockNumber, i32ofNat e.index) (fb, fi) := by
          have hr : fb ≤ e.blockNumber :=
            hrange e (List.mem_cons_self e rest)
          by_cases hbe : e.blockNumber = fb
          · right
            refine ⟨hbe.symm, ?_⟩
            have : ¬ i32ofNat e.index ≤ fi := fun hx => hseen ⟨hbe, hx⟩
            omega
          · left
            omega
        exact ih e.blockNumber (i32ofNat e.index) hnew hrange2 lb2 li2 hsome
      · rw [if_neg hok] at hsome
        have heq : (lb, li) = (lb2, li2) := Option.some.inj hsome
        rw [← heq]
        exact hge

/-- The cursor a trigger poll returns never moves lexicographically below
the incoming cursor (window-start range, no wrap). -/
theorem pollEventsForTrigger_cursor_ge (prov : EventsProvider)
    (hres : EventRec → Bool) (trigger : EventTrigger) (fb : Nat) (fi : Int)
    (toB : Nat)
    (hprov : ∀ q : EventsFilter, ∀ e ∈ prov q, q.fromBlock ≤ e.blockNumber)
    (hfb : fb ≤ toB) (htoB : toB + 1 < u32Mod) :
    pairGe
      ((pollEventsForTrigger prov hres trigger fb fi toB).latestBlock,
       (pollEventsForTrigger prov hres trigger fb fi toB).latestEventIndex)
      (fb, fi) := by
  unfold pollEventsForTrigger
  cases hr : resolveSourceFromTrigger trigger with
  | error e => exact pairGe_refl _
  | ok src =>
    dsimp only
    rcases hd : (dispatchEvents hres fb fi
        (prov { fromBlock := fb, toBlock := toB, address := src,
                topics := trigger.topics }) fb fi).1 with _ | ⟨lb2, li2⟩
    · dsimp only
      left
      rw [Nat.mod_eq_of_lt htoB]
      omega
    · dsimp only
      exact dispatchEvents_cursor_ge hres fb fi _ fb fi (pairGe_refl _)
        (fun e he => hprov _ e he) lb2 li2 hd

/-- The clamped window stays inside `[fromBlock, toBlock]` (no-wrap
regime). -/
theorem clampTo_bounds {toB fb : Nat} (hle : fb ≤ toB)
    (hlt : toB < u32Mod - 1) :
    fb ≤ clampTo toB fb ∧ clampTo toB fb ≤ toB := by
  unfold clampTo maxBlocksForEvents u32sub u32Mod at *
  split <;> omega

/-- Lexicographic order on events watermark entries. -/
def entryLe (x y : EventsEntry) : Prop :=
  x.latestBlock < y.latestBlock ∨
  (x.latestBlock = y.latestBlock ∧ x.latestEventIndex ≤ y.latestEventIndex)

/-- Pointwise order on events watermarks: every present entry keeps an
entry at least as large lexicographically. -/
def emdLe (m1 m2 : EventsMd) : Prop :=
  ∀ n v, alookup m1 n = some v → ∃ w, alookup m2 n = some w ∧ entryLe v w

/-- The persisted events watermark states of one `pollEvents` cycle form a
nondecreasing chain starting from the incoming state, provided the
provider only returns events at or after each query's from-block. -/
theorem runPollEvents_monotone (prov : EventsProvider)
    (hres : EventHandlerByName)
    (hprov : ∀ q : EventsFilter, ∀ e ∈ prov q, q.fromBlock ≤ e.blockNumber) :
    ∀ (triggers : List EventTrigger) (md : EventsMd) (toB : Nat),
      toB < u32Mod - 1 →
      List.Chain emdLe md
        (runPollEvents prov hres triggers md toB).persists := by
  intro triggers
  induction triggers with
  | nil => intro md toB _; exact List.Chain.nil
  | cons t rest ih =>
    intro md toB htoB
    rcases hc : resolveCursor t md with ⟨fb, fi, md1⟩
    by_cases hcmp : fb > toB
    · rw [runPollEvents_cons_early prov hres t rest md md1 toB fb fi hc
        hcmp]
      exact List.Chain.nil
    · push_neg at hcmp
      rw [runPollEvents_cons prov hres t rest md md1 toB fb fi hc hcmp]
      dsimp only
      have hb := clampTo_bounds hcmp htoB
      have hpg := pollEventsForTrigger_cursor_ge prov (hres t.name) t fb fi
        (clampTo toB fb) hprov hb.1 (by unfold u32Mod at *; omega)
      refine List.Chain.cons ?_ (ih _ (clampTo toB fb)
        (by unfold u32Mod at *; omega))
      intro n v hv
      by_cases hn : n = t.name
      · unfold resolveCursor at hc
        rw [hn] at hv
        rw [hv] at hc
        dsimp only at hc
        refine ⟨{ latestBlock := (pollEventsForTrigger prov (hres t.name)
                      t fb fi (clampTo toB fb)).latestBlock,
                  latestEventIndex := (pollEventsForTrigger prov
                      (hres t.name) t fb fi
                      (clampTo toB fb)).latestEventIndex },
          ?_, ?_⟩
        · rw [hn]
          exact alookup_aset_self md1 t.name _
        · by_cases hge : v.latestBlock ≥ t.earliestBlock
          · rw [if_pos hge] at hc
            have h1 : v.latestBlock = fb := congrArg Prod.fst hc
            have h2 : v.latestEventIndex = fi :=
              congrArg (fun p => p.2.1) hc
            rcases hpg with hl | ⟨he1, he2⟩
            · left
              rw [h1]
              exact hl
            · right
              exact ⟨h1.trans he1, by rw [h2]; exact he2⟩
          · rw [if_neg hge] at hc
            have h1 : t.earliestBlock = fb := congrArg Prod.fst hc
            push_neg at hge
            left
            show v.latestBlock <
              (pollEventsForTrigger prov (hres t.name) t fb fi
                (clampTo toB fb)).latestBlock
            rcases hpg with hl | ⟨he1, _⟩
            · omega
            · omega
      · have hne : t.name ≠ n := fun hx => hn hx.symm
        have hmd1 : alookup md1 n = alookup md n := by
          have hagr := resolveCursor_md_agree_ne t md n hne
          rw [hc] at hagr
          exact hagr
        refine ⟨v, ?_, Or.inr ⟨rfl, le_refl _⟩⟩
        rw [alookup_aset_ne md1 t.name n _ hne, hmd1]
        exact hv

/-- Claim C7: watermark monotonicity.  With no pending earliest-block
override (the claim's stated exception), every persisted watermark state
of a cycle is pointwise at least its predecessor: (a) the blocks map
(per-name values never decrease), (b) the transactions scalar, and (c) the
events per-name `(block, index)` pairs in lexicographic order, given that
the events provider only returns events at or after each query's
from-block.  Chains start at the incoming persisted state, so across any
sequence of poll cycles the persisted watermarks never decrease. -/
theorem claim_C7_watermark_monotonicity :
    (∀ (hres : BlockHandler) (triggers : List BlockTrigger)
       (md : BlocksMd) (toB : Nat),
      List.Chain mdLe md (pollBlocks hres triggers (-1) md toB).2.2.2) ∧
    (∀ (txsOf : Nat → List TxRec) (triggers : List TxTrigger)
       (mdLatest : Int) (toB : Nat),
      -1 ≤ mdLatest → mdLatest < 2147483647 → toB < 2147483648 →
      List.Chain (· ≤ ·) mdLatest
        (runPollTxs txsOf triggers (-1) mdLatest toB).2.2.2) ∧
    (∀ (prov : EventsProvider) (hres : EventHandlerByName)
       (triggers : List EventTrigger) (md : EventsMd) (toB : Nat),
      (∀ q : EventsFilter, ∀ e ∈ prov q, q.fromBlock ≤ e.blockNumber) →
      toB < u32Mod - 1 →
      List.Chain emdLe md
        (runPollEvents prov hres triggers md toB).persists) := by
  refine ⟨?_, ?_, ?_⟩
  · intro hres triggers md toB
    exact pollBlocks_monotone hres triggers md toB
  · intro txsOf triggers mdLatest toB h1 h2 h3
    exact pollTxs_monotone txsOf triggers mdLatest toB h1 h2 h3
  · intro prov hres triggers md toB hprov htoB
    exact runPollEvents_monotone prov hres hprov triggers md toB htoB

/-- Witness for claim C7 at concrete cycles of each walker. -/
theorem claim_C7_witness :
    List.Chain mdLe [("A", 30)]
      (pollBlocks (fun _ _ => true) [{ name := "A", earliestBlock := 0 }]
        (-1) [("A", 30)] 32).2.2.2 ∧
    List.Chain (· ≤ ·) (5 : Int)
      (runPollTxs (fun _ => []) [] (-1) 5 8).2.2.2 ∧
    List.Chain emdLe [("T", { latestBlock := 100, latestEventIndex := -1 })]
      (runPollEvents (fun _ => []) (fun _ _ => true)
        [{ name := "T", source := some 7, sourceResolver := none,
           topics := [], earliestBlock := 0 }]
        [("T", { latestBlock := 100, latestEventIndex := -1 })]
        300).persists := by
  refine ⟨?_, ?_, ?_⟩
  · exact claim_C7_watermark_monotonicity.1 (fun _ _ => true)
      [{ name := "A", earliestBlock := 0 }] [("A", 30)] 32
  · exact claim_C7_watermark_monotonicity.2.1 (fun _ => []) [] 5 8
      (by omega) (by omega) (by omega)
  · exact claim_C7_watermark_monotonicity.2.2 (fun _ => []) (fun _ _ => true)
      [{ name := "T", source := some 7, sourceResolver := none,
         topics := [], earliestBlock := 0 }]
      [("T", { latestBlock := 100, latestEventIndex := -1 })] 300
      (by intro q e he; cases he) (by unfold u32Mod; omega)

end EthListener
